import Mathlib

/-!
Verification of the csql streaming query engine against its design
specification.  The Go sources are shallowly embedded: each Lean definition
in this file is translated from the named Go function.  Dynamic values
(`interface\x7b\x7d` in Go) are modelled by the tagged type `GoValue`; Go
floating-point values are modelled by the exact rational number they denote
(IEEE rounding, hexadecimal/inf/nan literal forms are outside the model);
Go machine integers are modelled by `Int` with explicit range checks where
the source performs them.  SQLite, reached by the engine through
`database/sql`, is modelled by an explicit table store with the error
messages the engine inspects (`no such table`, missing-column failures).
-/

namespace Csql

/-! ## Dynamic record values

Go `interface\x7b\x7d` values produced by the readers: null, bool, int,
int64, float32, float64, string, and nested JSON objects/arrays
(`map[string]interface\x7b\x7d` / `[]interface\x7b\x7d`).  The nested
collections are represented by the mutual types `GoFields` / `GoValues`. -/

mutual
inductive GoValue where
  | vNull
  | vBool (b : Bool)
  | vInt (n : Int)
  | vInt64 (n : Int)
  | vFloat32 (q : ℚ)
  | vFloat64 (q : ℚ)
  | vText (s : String)
  | vObj (fields : GoFields)
  | vArr (elems : GoValues)
deriving DecidableEq

inductive GoValues where
  | nil
  | cons (hd : GoValue) (tl : GoValues)
deriving DecidableEq

inductive GoFields where
  | nil
  | cons (k : String) (v : GoValue) (tl : GoFields)
deriving DecidableEq
end

/-- A record: ordered mapping from attribute name to value
(`source.Record = map[string]interface\x7b\x7d` in Go; map keys are unique). -/
abbrev Rec := List (String × GoValue)

/-- Go map read `m[k]`: the value bound to `k`, if any. -/
def assocGet {α : Type _} (l : List (String × α)) (k : String) : Option α :=
  match l.find? (fun kv => kv.1 == k) with
  | some kv => some kv.2
  | none => none

/-- Go map assignment `m[k] = v`: overwrite in place, else append. -/
def assocSet {α : Type _} (l : List (String × α)) (k : String) (v : α) :
    List (String × α) :=
  match l with
  | [] => [(k, v)]
  | (k', v') :: rest => if k' == k then (k, v) :: rest else (k', v') :: assocSet rest k v

/-- Go map read on a record. -/
def recGet (r : Rec) (k : String) : Option GoValue := assocGet r k

/-- Go map assignment on a record. -/
def recSet (r : Rec) (k : String) (v : GoValue) : Rec := assocSet r k v

/-- Embeds `normalizeKey` (internal/engine/engine.go): converts numeric
values to float64 so that `int64(1)` and `float64(1)` hash to the same map
key; every other value is returned unchanged (the default branch). -/
def normalizeKey : GoValue → GoValue
  | .vInt n => .vFloat64 n
  | .vInt64 n => .vFloat64 n
  | .vFloat32 q => .vFloat64 q
  | v => v

/-- The join/probe key the engine derives from record `r` at column `col`:
in Go, `key := normalizeKey(rec[col])` followed by the `key != nil` guard.
A missing attribute and an explicit JSON null both read back as the nil
interface value, for which `normalizeKey` returns nil and the engine skips
the record. -/
def goKey (r : Rec) (col : String) : Option GoValue :=
  match recGet r col with
  | none => none
  | some .vNull => none
  | some v => some (normalizeKey v)

/-! ## JSON encoding of composite values

Models `encoding/json.Marshal` on decoded JSON trees (an external stdlib
collaborator per the spec).  Number rendering is canonical: integral
rationals print as integers, others via `Rat`; `Marshal` never fails on
these trees, so the error branch of the Go code is unreachable. -/

def jsonQuote (s : String) : String :=
  ⟨'"' :: (s.data.flatMap (fun c => if c == '"' || c == '\\' then ['\\', c] else [c])) ++ ['"']⟩

def ratToJson (q : ℚ) : String :=
  if q.den = 1 then toString q.num else toString q

mutual
def jsonEncodeVal : GoValue → String
  | .vNull => "null"
  | .vBool b => if b then "true" else "false"
  | .vInt n => toString n
  | .vInt64 n => toString n
  | .vFloat32 q => ratToJson q
  | .vFloat64 q => ratToJson q
  | .vText s => jsonQuote s
  | .vObj fs => "\x7b" ++ jsonEncodeFields fs ++ "\x7d"
  | .vArr es => "[" ++ jsonEncodeElems es ++ "]"

def jsonEncodeFields : GoFields → String
  | .nil => ""
  | .cons k v .nil => jsonQuote k ++ ":" ++ jsonEncodeVal v
  | .cons k v tl => jsonQuote k ++ ":" ++ jsonEncodeVal v ++ "," ++ jsonEncodeFields tl

def jsonEncodeElems : GoValues → String
  | .nil => ""
  | .cons v .nil => jsonEncodeVal v
  | .cons v tl => jsonEncodeVal v ++ "," ++ jsonEncodeElems tl
end

/-- Embeds the value-binding step of `insertRecord` (internal/engine/engine.go):
nested objects and arrays are serialised to JSON text before being bound as
SQL parameters; scalars are bound as they are. -/
def bindValue : GoValue → GoValue
  | .vObj fs => .vText (jsonEncodeVal (.vObj fs))
  | .vArr es => .vText (jsonEncodeVal (.vArr es))
  | v => v

/-- A record as bound for an INSERT: every composite attribute JSON-encoded. -/
def bindRec (r : Rec) : Rec :=
  r.map (fun kv => (kv.1, bindValue kv.2))

/-- Embeds `sqliteType` (internal/engine/engine.go): column type inferred from
a bound value — numeric to REAL, boolean to INTEGER, anything else TEXT. -/
def sqliteType (v : GoValue) : String :=
  match v with
  | .vFloat64 _ => "REAL"
  | .vFloat32 _ => "REAL"
  | .vInt _ => "REAL"
  | .vInt64 _ => "REAL"
  | .vBool _ => "INTEGER"
  | _ => "TEXT"

/-- C8: the key normalisation coerces every numeric representation of a value
to one representation: an integer `n` presented as a machine integer
(`int` or `int64`) or as a floating-point value (`float32` or `float64`)
normalises to the same key, and non-numeric values are returned
unchanged. -/
theorem normalizeKey_coerces_numerics :
    (∀ n : Int,
      normalizeKey (.vInt n) = normalizeKey (.vFloat64 (n : ℚ))
      ∧ normalizeKey (.vInt64 n) = normalizeKey (.vFloat64 (n : ℚ))
      ∧ normalizeKey (.vFloat32 (n : ℚ)) = normalizeKey (.vFloat64 (n : ℚ)))
    ∧ normalizeKey .vNull = .vNull
    ∧ (∀ b, normalizeKey (.vBool b) = .vBool b)
    ∧ (∀ s, normalizeKey (.vText s) = .vText s)
    ∧ (∀ fs, normalizeKey (.vObj fs) = .vObj fs)
    ∧ (∀ es, normalizeKey (.vArr es) = .vArr es) := by
  exact ⟨fun _ => ⟨rfl, rfl, rfl⟩, rfl, fun _ => rfl, fun _ => rfl,
    fun _ => rfl, fun _ => rfl⟩

/-! ## Assoc-map lemmas -/

theorem assocGet_set_self {α : Type _} (l : List (String × α)) (k : String) (v : α) :
    assocGet (assocSet l k v) k = some v := by
  induction l with
  | nil => simp [assocGet, assocSet, List.find?]
  | cons hd tl ih =>
    obtain ⟨k', v'⟩ := hd
    by_cases h : k' = k
    · simp [assocGet, assocSet, h, List.find?]
    · have hb : (k' == k) = false := beq_false_of_ne h
      simp only [assocSet, hb, if_false]
      simpa [assocGet, List.find?, hb] using ih

theorem assocGet_set_ne {α : Type _} (l : List (String × α)) (k k' : String) (v : α)
    (h : k' ≠ k) : assocGet (assocSet l k v) k' = assocGet l k' := by
  induction l with
  | nil =>
    simp [assocGet, assocSet, List.find?, beq_false_of_ne (Ne.symm h)]
  | cons hd tl ih =>
    obtain ⟨k₀, v₀⟩ := hd
    by_cases h₀ : k₀ = k
    · subst h₀
      simp [assocGet, assocSet, List.find?, beq_false_of_ne (Ne.symm h)]
    · have hb : (k₀ == k) = false := beq_false_of_ne h₀
      by_cases h₁ : k₀ = k'
      · subst h₁
        simp [assocGet, assocSet, hb, List.find?]
      · have hb' : (k₀ == k') = false := beq_false_of_ne h₁
        simp only [assocSet, hb, if_false]
        simpa [assocGet, List.find?, hb'] using ih

theorem assocGet_append_single_ne {α : Type _} (l : List (String × α)) (k k' : String)
    (x : α) (h : k' ≠ k) : assocGet (l ++ [(k, x)]) k' = assocGet l k' := by
  induction l with
  | nil => simp [assocGet, List.find?, beq_false_of_ne (Ne.symm h)]
  | cons hd tl ih =>
    obtain ⟨k₀, v₀⟩ := hd
    by_cases h₀ : k₀ = k'
    · subst h₀
      simp [assocGet, List.find?]
    · have hb : (k₀ == k') = false := beq_false_of_ne h₀
      simpa [assocGet, List.find?, hb] using ih

theorem assocGet_append_single_self {α : Type _} (l : List (String × α)) (k : String)
    (x : α) (h : assocGet l k = none) : assocGet (l ++ [(k, x)]) k = some x := by
  induction l with
  | nil => simp [assocGet, List.find?]
  | cons hd tl ih =>
    obtain ⟨k₀, v₀⟩ := hd
    by_cases h₀ : k₀ = k
    · subst h₀
      simp [assocGet, List.find?] at h
    · have hb : (k₀ == k) = false := beq_false_of_ne h₀
      have h' : assocGet tl k = none := by
        simpa only [assocGet, List.find?, hb] using h
      simpa only [assocGet, List.cons_append, List.find?, hb] using ih h'

/-! ## Embedded SQLite model

The engine reaches SQLite through `database/sql` with three statement
shapes: INSERT, CREATE TABLE IF NOT EXISTS, and ALTER TABLE ADD COLUMN.
The store is modelled explicitly; error strings carry the SQLite messages
the engine inspects with `strings.Contains`. -/

/-- One SQLite table: declared columns (name, type) in creation order, and
the stored rows (each row a bound record; attributes absent from a row read
back as SQL NULL). -/
structure SqlTable where
  schema : List (String × String)
  rows : List Rec
deriving DecidableEq

/-- A window or static database: named tables. -/
abbrev DB := List (String × SqlTable)

def dbGet (db : DB) (t : String) : Option SqlTable := assocGet db t

def colNames (tb : SqlTable) : List String := tb.schema.map Prod.fst

/-- Rows currently stored in table `t` (empty when the table is absent). -/
def rowsOf (db : DB) (t : String) : List Rec :=
  match dbGet db t with
  | some tb => tb.rows
  | none => []

/-- Declared column names of table `t` (empty when the table is absent). -/
def colsOf (db : DB) (t : String) : List String :=
  match dbGet db t with
  | some tb => colNames tb
  | none => []

/-- Declared schema of table `t` (empty when the table is absent). -/
def schemaOf (db : DB) (t : String) : List (String × String) :=
  match dbGet db t with
  | some tb => tb.schema
  | none => []

/-- SQLite INSERT: fails with "no such table" when the table is absent, or
with a missing-column message when the row binds an undeclared column;
otherwise appends the row. -/
def execInsert (db : DB) (t : String) (row : Rec) : Except String DB :=
  match dbGet db t with
  | none => Except.error ("no such table: " ++ t)
  | some tb =>
    match row.find? (fun kv => !((colNames tb).contains kv.1)) with
    | some kv => Except.error ("table " ++ t ++ " has no column named " ++ kv.1)
    | none => Except.ok (assocSet db t { tb with rows := tb.rows ++ [row] })

/-- SQLite CREATE TABLE IF NOT EXISTS: no-op when the table already exists. -/
def createIfNotExists (db : DB) (t : String) (schema : List (String × String)) : DB :=
  match dbGet db t with
  | some _ => db
  | none => db ++ [(t, { schema := schema, rows := [] })]

/-- SQLite ALTER TABLE ADD COLUMN with the error discarded, as in the Go
code (`db.Exec(alterSQL)` ignoring the result): the net effect is to append
the column unless it already exists. -/
def alterAddColumn (db : DB) (t : String) (col ty : String) : DB :=
  match dbGet db t with
  | none => db
  | some tb =>
    if (colNames tb).contains col = true then db
    else assocSet db t { tb with schema := tb.schema ++ [(col, ty)] }

/-- Embeds `insertRecord` (internal/engine/engine.go): empty records are
dropped; otherwise try the INSERT, on failure CREATE TABLE IF NOT EXISTS
with one column per attribute typed by `sqliteType` and retry, on failure
ALTER TABLE ADD COLUMN for every attribute (errors ignored) and retry a
final time, surfacing only the final error. -/
def insertRecord (db : DB) (t : String) (r : Rec) : Except String DB :=
  if r.isEmpty then Except.ok db
  else
    let bound := bindRec r
    let schema := r.map (fun kv => (kv.1, sqliteType (bindValue kv.2)))
    match execInsert db t bound with
    | Except.ok db' => Except.ok db'
    | Except.error _ =>
      let db2 := createIfNotExists db t schema
      match execInsert db2 t bound with
      | Except.ok db3 => Except.ok db3
      | Except.error _ =>
        let db4 := schema.foldl (fun d cd => alterAddColumn d t cd.1 cd.2) db2
        execInsert db4 t bound

/-! ## Insert ladder lemmas -/

theorem map_keyed_fst {β : Type _} (r : Rec) (f : String × GoValue → β) :
    (r.map (fun kv => (kv.1, f kv))).map Prod.fst = r.map Prod.fst := by
  induction r with
  | nil => rfl
  | cons hd tl ih => simp [ih]

theorem bindRec_keys (r : Rec) : (bindRec r).map Prod.fst = r.map Prod.fst :=
  map_keyed_fst r (fun kv => bindValue kv.2)

theorem execInsert_of_absent {db : DB} {t : String} (row : Rec) (h : dbGet db t = none) :
    execInsert db t row = Except.error ("no such table: " ++ t) := by
  simp [execInsert, h]

theorem execInsert_of_allCols {db : DB} {t : String} {row : Rec} {tb : SqlTable}
    (h : dbGet db t = some tb) (hall : ∀ kv ∈ row, kv.1 ∈ colNames tb) :
    execInsert db t row =
      Except.ok (assocSet db t { tb with rows := tb.rows ++ [row] }) := by
  have hf : row.find? (fun kv => !((colNames tb).contains kv.1)) = none := by
    refine List.find?_eq_none.mpr (fun kv hkv => ?_)
    simp
    exact hall kv hkv
  simp only [execInsert, h, hf]

theorem alterAdd_get_ne {db : DB} {t t' col ty : String} (h : t' ≠ t) :
    dbGet (alterAddColumn db t col ty) t' = dbGet db t' := by
  cases hdb : dbGet db t with
  | none => simp only [alterAddColumn, hdb]
  | some tb =>
    by_cases hc : (colNames tb).contains col = true
    · simp only [alterAddColumn, hdb, if_pos hc]
    · simp only [alterAddColumn, hdb, if_neg hc]
      exact assocGet_set_ne db t t' _ h

theorem alterAdd_get_self {db : DB} {t col ty : String} {tb : SqlTable}
    (h : dbGet db t = some tb) :
    ∃ tb', dbGet (alterAddColumn db t col ty) t = some tb'
      ∧ tb'.rows = tb.rows
      ∧ (∀ c, c ∈ colNames tb' ↔ c ∈ colNames tb ∨ c = col) := by
  by_cases hc : (colNames tb).contains col = true
  · refine ⟨tb, ?_, rfl, fun c => ?_⟩
    · simp only [alterAddColumn, h, if_pos hc]
    · constructor
      · exact fun hm => Or.inl hm
      · rintro (hm | rfl)
        · exact hm
        · simpa using hc
  · refine ⟨{ tb with schema := tb.schema ++ [(col, ty)] }, ?_, rfl, fun c => ?_⟩
    · simp only [alterAddColumn, h, if_neg hc]
      exact assocGet_set_self db t _
    · simp [colNames]

theorem alterFold_spec (cols : List (String × String)) (db : DB) (t : String)
    (tb : SqlTable) (h : dbGet db t = some tb) :
    ∃ tb',
      dbGet (cols.foldl (fun d cd => alterAddColumn d t cd.1 cd.2) db) t = some tb'
      ∧ tb'.rows = tb.rows
      ∧ (∀ c, c ∈ colNames tb' ↔ c ∈ colNames tb ∨ c ∈ cols.map Prod.fst)
      ∧ (∀ t', t' ≠ t →
          dbGet (cols.foldl (fun d cd => alterAddColumn d t cd.1 cd.2) db) t'
            = dbGet db t') := by
  induction cols generalizing db tb with
  | nil => exact ⟨tb, h, rfl, by simp, fun _ _ => rfl⟩
  | cons cd rest ih =>
    obtain ⟨tb₁, h₁, hrows₁, hcols₁⟩ := @alterAdd_get_self db t cd.1 cd.2 tb h
    obtain ⟨tb', h', hrows', hcols', hother'⟩ := ih (alterAddColumn db t cd.1 cd.2) tb₁ h₁
    refine ⟨tb', h', hrows'.trans hrows₁, fun c => ?_, fun t' hne => ?_⟩
    · rw [hcols' c, hcols₁ c]
      simp only [List.map_cons, List.mem_cons]
      tauto
    · exact (hother' t' hne).trans (alterAdd_get_ne hne)

/-- Workhorse characterisation of the insert ladder (shared helper). -/
theorem insertRecord_spec (db : DB) (t : String) (r : Rec) (hne : r ≠ []) :
    ∃ db', insertRecord db t r = Except.ok db'
      ∧ rowsOf db' t = rowsOf db t ++ [bindRec r]
      ∧ (∀ t', t' ≠ t → dbGet db' t' = dbGet db t')
      ∧ (dbGet db t = none →
          schemaOf db' t = r.map (fun kv => (kv.1, sqliteType (bindValue kv.2))))
      ∧ (∀ c, c ∈ colsOf db' t ↔ (c ∈ colsOf db t ∨ c ∈ r.map Prod.fst)) := by
  have hEmp : r.isEmpty = false := by
    cases r with
    | nil => exact absurd rfl hne
    | cons hd tl => rfl
  have hBoundKeys : ∀ kv ∈ bindRec r, kv.1 ∈ r.map Prod.fst := by
    intro kv hkv
    have := List.mem_map_of_mem Prod.fst hkv
    rwa [bindRec_keys] at this
  have hKeysBound : ∀ c ∈ r.map Prod.fst, ∃ kv ∈ bindRec r, kv.1 = c := by
    intro c hc
    rw [← bindRec_keys] at hc
    obtain ⟨kv, hkv, hfst⟩ := List.mem_map.mp hc
    exact ⟨kv, hkv, hfst⟩
  have hSchemaKeys :
      (r.map (fun kv => (kv.1, sqliteType (bindValue kv.2)))).map Prod.fst
        = r.map Prod.fst := map_keyed_fst r _
  cases hdb : dbGet db t with
  | none =>
    -- Table absent: first INSERT fails, CREATE makes the table, retry lands.
    have hdb' : assocGet db t = none := hdb
    have hIns1 := @execInsert_of_absent db t (bindRec r) hdb
    have hCreate : createIfNotExists db t
        (r.map (fun kv => (kv.1, sqliteType (bindValue kv.2))))
        = db ++ [(t, { schema := r.map (fun kv => (kv.1, sqliteType (bindValue kv.2))),
                       rows := [] })] := by
      simp [createIfNotExists, hdb]
    have hGet2 : dbGet (db ++ [(t,
        { schema := r.map (fun kv => (kv.1, sqliteType (bindValue kv.2))),
          rows := [] })]) t
        = some { schema := r.map (fun kv => (kv.1, sqliteType (bindValue kv.2))),
                 rows := [] } :=
      assocGet_append_single_self db t _ hdb'
    have hIns2 : execInsert (db ++ [(t,
        { schema := r.map (fun kv => (kv.1, sqliteType (bindValue kv.2))),
          rows := [] })]) t (bindRec r)
        = Except.ok (assocSet (db ++ [(t,
            { schema := r.map (fun kv => (kv.1, sqliteType (bindValue kv.2))),
              rows := [] })]) t
            { schema := r.map (fun kv => (kv.1, sqliteType (bindValue kv.2))),
              rows := [] ++ [bindRec r] }) := by
      refine execInsert_of_allCols hGet2 (fun kv hkv => ?_)
      have hmem : kv.1 ∈ r.map Prod.fst := hBoundKeys kv hkv
      simpa [colNames, hSchemaKeys] using hmem
    refine ⟨assocSet (db ++ [(t,
        { schema := r.map (fun kv => (kv.1, sqliteType (bindValue kv.2))),
          rows := [] })]) t
        { schema := r.map (fun kv => (kv.1, sqliteType (bindValue kv.2))),
          rows := [] ++ [bindRec r] }, ?_, ?_, ?_, ?_, ?_⟩
    · simp only [insertRecord, hEmp, Bool.false_eq_true, if_false]
      rw [hIns1, hCreate, hIns2]
    · simp [rowsOf, dbGet, assocGet_set_self, hdb']
    · intro t' hne'
      simp only [dbGet]
      rw [assocGet_set_ne _ _ _ _ hne', assocGet_append_single_ne _ _ _ _ hne']
    · intro _
      simp [schemaOf, dbGet, assocGet_set_self]
    · intro c
      simp [colsOf, dbGet, assocGet_set_self, hdb', colNames, hSchemaKeys]
  | some tb =>
    cases hfind : (bindRec r).find? (fun kv => !((colNames tb).contains kv.1)) with
    | none =>
      -- Fast path: every bound column is declared, the first INSERT lands.
      have hall : ∀ kv ∈ bindRec r, kv.1 ∈ colNames tb := by
        intro kv hkv
        have := List.find?_eq_none.mp hfind kv hkv
        simpa using this
      have hdb' : assocGet db t = some tb := hdb
      have hIns1 : execInsert db t (bindRec r)
          = Except.ok (assocSet db t { tb with rows := tb.rows ++ [bindRec r] }) :=
        execInsert_of_allCols hdb hall
      refine ⟨assocSet db t { tb with rows := tb.rows ++ [bindRec r] }, ?_, ?_, ?_, ?_, ?_⟩
      · simp only [insertRecord, hEmp, Bool.false_eq_true, if_false]
        rw [hIns1]
      · simp [rowsOf, dbGet, assocGet_set_self, hdb']
      · intro t' hne'
        exact assocGet_set_ne db t t' _ hne'
      · exact fun hcontra => Option.noConfusion hcontra
      · intro c
        have hNew : colsOf (assocSet db t { tb with rows := tb.rows ++ [bindRec r] }) t
            = colNames tb := by
          simp [colsOf, dbGet, assocGet_set_self, colNames]
        have hOld : colsOf db t = colNames tb := by
          simp [colsOf, dbGet, hdb']
        rw [hNew, hOld]
        constructor
        · exact fun hm => Or.inl hm
        · rintro (hm | hm)
          · exact hm
          · obtain ⟨kv, hkv, rfl⟩ := hKeysBound c hm
            exact hall kv hkv
    | some kvBad =>
      -- Some column is missing: CREATE is a no-op, the retry fails the same
      -- way, ALTER adds the missing columns, the final retry lands.
      have hdb' : assocGet db t = some tb := hdb
      have hIns1 : execInsert db t (bindRec r)
          = Except.error ("table " ++ t ++ " has no column named " ++ kvBad.1) := by
        simp only [execInsert, hdb, hfind]
      have hCreate : createIfNotExists db t
          (r.map (fun kv => (kv.1, sqliteType (bindValue kv.2)))) = db := by
        simp [createIfNotExists, hdb]
      obtain ⟨tb', hGet', hrows', hcols', hother'⟩ :=
        alterFold_spec (r.map (fun kv => (kv.1, sqliteType (bindValue kv.2)))) db t tb hdb
      have hIns3 : execInsert
          ((r.map (fun kv => (kv.1, sqliteType (bindValue kv.2)))).foldl
            (fun d cd => alterAddColumn d t cd.1 cd.2) db) t (bindRec r)
          = Except.ok (assocSet
              ((r.map (fun kv => (kv.1, sqliteType (bindValue kv.2)))).foldl
                (fun d cd => alterAddColumn d t cd.1 cd.2) db) t
              { tb' with rows := tb'.rows ++ [bindRec r] }) := by
        refine execInsert_of_allCols hGet' (fun kv hkv => ?_)
        refine (hcols' kv.1).mpr (Or.inr ?_)
        rw [hSchemaKeys]
        exact hBoundKeys kv hkv
      refine ⟨assocSet
          ((r.map (fun kv => (kv.1, sqliteType (bindValue kv.2)))).foldl
            (fun d cd => alterAddColumn d t cd.1 cd.2) db) t
          { tb' with rows := tb'.rows ++ [bindRec r] }, ?_, ?_, ?_, ?_, ?_⟩
      · simp only [insertRecord, hEmp, Bool.false_eq_true, if_false]
        rw [hIns1, hCreate, hIns1, hIns3]
      · simp [rowsOf, dbGet, assocGet_set_self, hdb', hrows']
      · intro t' hne'
        simp only [dbGet]
        rw [assocGet_set_ne _ _ _ _ hne']
        exact hother' t' hne'
      · exact fun hcontra => Option.noConfusion hcontra
      · intro c
        have hNew : colsOf (assocSet
            ((r.map (fun kv => (kv.1, sqliteType (bindValue kv.2)))).foldl
              (fun d cd => alterAddColumn d t cd.1 cd.2) db) t
            { tb' with rows := tb'.rows ++ [bindRec r] }) t = colNames tb' := by
          simp [colsOf, dbGet, assocGet_set_self, colNames]
        have hOld : colsOf db t = colNames tb := by
          simp [colsOf, dbGet, hdb']
        rw [hNew, hOld, hcols' c, hSchemaKeys]

/-- C4: for every nonempty record and table name, the insert-with-schema-
evolution helper succeeds along the try-insert / create-table / add-columns
ladder: the bound row (composites JSON-encoded to text) is appended to the
table, no other table changes, a freshly created table gets one column per
attribute typed numeric to REAL, boolean to INTEGER, anything else TEXT,
and the final column set is the old column set united with the record
attribute names. -/
theorem insertRecord_ladder (db : DB) (t : String) (r : Rec) (hne : r ≠ []) :
    ∃ db', insertRecord db t r = Except.ok db'
      ∧ rowsOf db' t = rowsOf db t ++ [bindRec r]
      ∧ (∀ t', t' ≠ t → dbGet db' t' = dbGet db t')
      ∧ (dbGet db t = none →
          schemaOf db' t = r.map (fun kv => (kv.1, sqliteType (bindValue kv.2))))
      ∧ (∀ c, c ∈ colsOf db' t ↔ (c ∈ colsOf db t ∨ c ∈ r.map Prod.fst)) :=
  insertRecord_spec db t r hne

/-- Witness for C4 at a concrete input: inserting a record with a nested
object into an empty database creates the table with the inferred REAL /
INTEGER / TEXT columns and stores the bound row. -/
theorem insertRecord_ladder_witness :
    ([("age", GoValue.vInt64 30), ("ok", GoValue.vBool true),
      ("tags", GoValue.vArr (.cons (.vText "a") .nil))] : Rec) ≠ []
    ∧ ∃ db', insertRecord [] "users"
        [("age", GoValue.vInt64 30), ("ok", GoValue.vBool true),
         ("tags", GoValue.vArr (.cons (.vText "a") .nil))] = Except.ok db'
      ∧ rowsOf db' "users" = rowsOf ([] : DB) "users"
          ++ [bindRec [("age", GoValue.vInt64 30), ("ok", GoValue.vBool true),
                ("tags", GoValue.vArr (.cons (.vText "a") .nil))]]
      ∧ (∀ t', t' ≠ "users" → dbGet db' t' = dbGet ([] : DB) t')
      ∧ (dbGet ([] : DB) "users" = none →
          schemaOf db' "users"
            = ([("age", GoValue.vInt64 30), ("ok", GoValue.vBool true),
                ("tags", GoValue.vArr (.cons (.vText "a") .nil))] : Rec).map
                (fun kv => (kv.1, sqliteType (bindValue kv.2))))
      ∧ (∀ c, c ∈ colsOf db' "users" ↔ (c ∈ colsOf ([] : DB) "users"
          ∨ c ∈ ([("age", GoValue.vInt64 30), ("ok", GoValue.vBool true),
              ("tags", GoValue.vArr (.cons (.vText "a") .nil))] : Rec).map Prod.fst)) :=
  ⟨by decide, insertRecord_ladder [] "users"
    [("age", GoValue.vInt64 30), ("ok", GoValue.vBool true),
     ("tags", GoValue.vArr (.cons (.vText "a") .nil))] (by decide)⟩

/-! ## Error classification and batch-mode query errors -/

/-- Go `strings.Contains`. -/
def containsSubstr (s sub : String) : Bool :=
  decide (sub.data <:+: s.data)

/-- Embeds `isNoSuchTableErr` (internal/engine/engine.go): a non-nil error
whose message contains "no such table".  In this model an error is present
exactly when a `String` is at hand, so the nil check is implicit. -/
def isNoSuchTableErr (e : String) : Bool :=
  containsSubstr e "no such table"

/-- Embeds the source-loading loop of `Engine.executeBatch` for one
non-attachable source: every record of the channel is inserted in order,
the first failure aborting with the wrapped error. -/
def loadRecords (db : DB) (t : String) (recs : List Rec) : Except String DB :=
  match recs with
  | [] => Except.ok db
  | r :: rest =>
    match insertRecord db t r with
    | Except.ok db' => loadRecords db' t rest
    | Except.error e => Except.error ("insert into " ++ t ++ ": " ++ e)

/-- Embeds the query phase of `Engine.executeBatch` (lines 114-126): the
compiled SQL runs once; a "no such table" failure is treated as an empty
result and reported as success, any other failure is fatal with the SQL
attached; on success the rows are streamed out. -/
def executeBatchQueryPhase (qres : Except String (List Rec)) (sqlStr : String) :
    Except String (List Rec) :=
  match qres with
  | Except.ok rows => Except.ok rows
  | Except.error e =>
    if isNoSuchTableErr e then Except.ok []
    else Except.error ("query: " ++ e ++ "\nSQL: " ++ sqlStr)

/-- C10: in batch mode, a source that produced zero records leaves the
database untouched (its table is never created, so the compiled query can
fail with the model's "no such table" message), and when the single query
execution fails with a "no such table" error the engine returns success
with no output rows; every other query error stays fatal. -/
theorem executeBatch_noSuchTable_is_success (t sqlStr : String) :
    (∀ db : DB, loadRecords db t [] = Except.ok db)
    ∧ isNoSuchTableErr ("no such table: " ++ t) = true
    ∧ (∀ e, isNoSuchTableErr e = true →
        executeBatchQueryPhase (Except.error e) sqlStr = Except.ok [])
    ∧ (∀ e, isNoSuchTableErr e = false →
        executeBatchQueryPhase (Except.error e) sqlStr
          = Except.error ("query: " ++ e ++ "\nSQL: " ++ sqlStr)) := by
  refine ⟨fun _ => rfl, ?_, fun e he => ?_, fun e he => ?_⟩
  · have hinf : ("no such table".data) <:+: ("no such table: " ++ t).data := by
      refine ⟨[], (": " ++ t).data, ?_⟩
      simp [String.data_append]
    unfold isNoSuchTableErr containsSubstr
    exact decide_eq_true hinf
  · simp [executeBatchQueryPhase, he]
  · simp [executeBatchQueryPhase, he]

/-- Witness for C10 at a concrete input: the "no such table: users" error
yields a successful empty result, while "no such column: age" stays fatal. -/
theorem executeBatch_noSuchTable_is_success_witness :
    (∀ db : DB, loadRecords db "users" [] = Except.ok db)
    ∧ isNoSuchTableErr ("no such table: " ++ "users") = true
    ∧ executeBatchQueryPhase (Except.error "no such table: users") "SELECT 1"
        = Except.ok []
    ∧ executeBatchQueryPhase (Except.error "no such column: age") "SELECT 1"
        = Except.error ("query: " ++ "no such column: age" ++ "\nSQL: " ++ "SELECT 1") := by
  obtain ⟨h1, h2, h3, h4⟩ := executeBatch_noSuchTable_is_success "users" "SELECT 1"
  exact ⟨h1, h2, h3 "no such table: users" (by decide), h4 "no such column: age" (by decide)⟩

/-! ## Source adapter close semantics -/

/-- State of a `StdinSource`: whether its `done` channel has been closed.
`Close` runs `close(s.done)`; in Go, closing an already-closed channel
panics ("close of closed channel"), modelled as `none`. -/
structure StdinSourceState where
  doneClosed : Bool
deriving DecidableEq

/-- Embeds `StdinSource.Close` (internal/source/stdin.go): unconditionally
closes the `done` channel and returns nil; a second call faults. -/
def stdinSourceClose (st : StdinSourceState) : Option StdinSourceState :=
  if st.doneClosed then none else some { doneClosed := true }

/-- Embeds `FileSource.Close`: a stateless `return nil`. -/
def fileSourceClose : Option Unit := some ()

/-- Embeds `SQLiteSource.Close` (internal/source/sqlite.go): a stateless
`return nil`. -/
def sqliteSourceClose : Option Unit := some ()

/-- C7 counterexample: the claim that every source adapter's close is
idempotent is false for the stdin adapter — after a first successful close
(`doneClosed` now true) the second `Close` faults with a close-of-closed-
channel panic instead of being a safe no-op. -/
theorem stdinClose_second_call_faults :
    stdinSourceClose { doneClosed := false } = some { doneClosed := true }
    ∧ stdinSourceClose { doneClosed := true } = none := by
  exact ⟨rfl, rfl⟩

/-- C7 as amended: close is idempotent for the file and SQLite source
adapters (a stateless nil return), but `StdinSource.Close` may be called
at most once — the first call closes the done channel and any further call
faults. -/
theorem sourceClose_semantics :
    fileSourceClose = some ()
    ∧ sqliteSourceClose = some ()
    ∧ (∀ st : StdinSourceState, st.doneClosed = false →
        stdinSourceClose st = some { doneClosed := true })
    ∧ (∀ st : StdinSourceState, st.doneClosed = true → stdinSourceClose st = none) := by
  refine ⟨rfl, rfl, fun st h => ?_, fun st h => ?_⟩
  · simp [stdinSourceClose, h]
  · simp [stdinSourceClose, h]

/-- Witness for the amended C7 at concrete states. -/
theorem sourceClose_semantics_witness :
    fileSourceClose = some ()
    ∧ stdinSourceClose { doneClosed := false } = some { doneClosed := true }
    ∧ stdinSourceClose { doneClosed := true } = none := by
  obtain ⟨h1, _, h3, h4⟩ := sourceClose_semantics
  exact ⟨h1, h3 { doneClosed := false } rfl, h4 { doneClosed := true } rfl⟩

/-! ## Interval-driven execution: query error handling -/

/-- Outcome of one query execution inside the streaming loop. -/
inductive CycleOutcome where
  | emitted (rows : List Rec)
  | skipped
  | fatal (e : String)
deriving DecidableEq

/-- Embeds the ticker branch of `Engine.streamWithEvery`
(internal/engine/engine.go lines 360-375): the compiled query runs against
the current window; on ANY error the cycle is skipped (`continue`),
otherwise the rows are emitted. -/
def tickQueryStep (qres : Except String (List Rec)) : CycleOutcome :=
  match qres with
  | Except.error _ => CycleOutcome.skipped
  | Except.ok rows => CycleOutcome.emitted rows

/-- Embeds the per-arrival query step of `Engine.executeStreaming`
(lines 295-301): "no such table" errors skip the cycle, every other error
is fatal with the compiled SQL in the diagnostic. -/
def arrivalQueryStep (qres : Except String (List Rec)) (sqlStr : String) : CycleOutcome :=
  match qres with
  | Except.ok rows => CycleOutcome.emitted rows
  | Except.error e =>
    if isNoSuchTableErr e then CycleOutcome.skipped
    else CycleOutcome.fatal ("query: " ++ e ++ "\nSQL: " ++ sqlStr)

/-- C5: evaluation of the interval-driven loop at the failing input.  A
ticker-triggered query failure whose message is not a "no such table"
error is nevertheless skipped by the code (`continue` on any error), while
the claim — matching the arrival-driven branch, embedded alongside —
requires it to be fatal. -/
theorem streamWithEvery_tick_skips_every_error :
    isNoSuchTableErr "no such column: missing" = false
    ∧ tickQueryStep (Except.error "no such column: missing") = CycleOutcome.skipped
    ∧ arrivalQueryStep (Except.error "no such column: missing") "SELECT 1"
        = CycleOutcome.fatal ("query: " ++ "no such column: missing"
            ++ "\nSQL: " ++ "SELECT 1") := by
  refine ⟨by decide, rfl, ?_⟩
  simp [arrivalQueryStep, isNoSuchTableErr, containsSubstr]
  decide

/-! ## Windows and the window manager

A `Window` is a time-partitioned in-memory database plus the per-table set
of already-materialised indexed keys (`insertedKeys`, a lazily created
map in Go, here an assoc list that starts empty).  The manager's static
attachments never fail in this model and contribute no window-local base
tables, so a fresh window's database is empty. -/

structure Window where
  db : DB
  start : Nat
  endT : Nat
  insertedKeys : List (String × List GoValue)
deriving DecidableEq

/-- Embeds `Window.hasKey` (internal/engine/window.go): nil maps and
missing tables answer false. -/
def Window.hasKey (w : Window) (table : String) (key : GoValue) : Bool :=
  match assocGet w.insertedKeys table with
  | none => false
  | some keys => keys.contains key

/-- Embeds `Window.markKey`: record that `key` was materialised for
`table`, creating the per-table set on first use (Go map-set semantics:
adding a present key changes nothing). -/
def Window.markKey (w : Window) (table : String) (key : GoValue) : Window :=
  match assocGet w.insertedKeys table with
  | none => { w with insertedKeys := assocSet w.insertedKeys table [key] }
  | some keys =>
    { w with insertedKeys :=
        assocSet w.insertedKeys table (if keys.contains key then keys else keys ++ [key]) }

/-- Embeds `WindowManager` (duration plus the open windows, oldest first;
the static database and attachments do not affect window accounting). -/
structure WindowManager where
  duration : Nat
  windows : List Window
deriving DecidableEq

/-- Embeds `NewWindowManager`: no windows are open initially. -/
def NewWindowManager (duration : Nat) : WindowManager :=
  { duration := duration, windows := [] }

/-- Go `time.Time.Truncate(d)`: rounds down to a multiple of `d`; for
`d = 0` the time is returned unchanged. -/
def truncateGo (now d : Nat) : Nat :=
  if d = 0 then now else now - now % d

/-- Embeds `WindowManager.createWindow`: a fresh empty database covering
`[start, start + duration)`. -/
def createWindow (wm : WindowManager) (start : Nat) : Window :=
  { db := [], start := start, endT := start + wm.duration, insertedKeys := [] }

/-- The eviction loop of `WindowManager.Current`: while more than two
windows are retained, close and drop the oldest.  Returns (kept, closed). -/
def evictLoop : List Window → List Window × List Window
  | [] => ([], [])
  | w :: rest =>
    if rest.length ≥ 2 then
      let p := evictLoop rest
      (p.1, w :: p.2)
    else (w :: rest, [])

/-- Embeds `WindowManager.Current` (internal/engine/window.go lines
71-103): return the last window when its start matches the truncated
current time, otherwise create a window, append it, and evict the oldest
windows until at most two remain.  Result: (returned window, new manager
state, closed windows). -/
def wmCurrent (wm : WindowManager) (now : Nat) : Window × WindowManager × List Window :=
  let windowStart := truncateGo now wm.duration
  let win := createWindow wm windowStart
  let p := evictLoop (wm.windows ++ [win])
  let created : Window × WindowManager × List Window :=
    (win, { wm with windows := p.1 }, p.2)
  match wm.windows.getLast? with
  | some last => if last.start = windowStart then (last, wm, []) else created
  | none => created

/-- A sequence of `Current` calls at the given wall-clock instants. -/
def runCalls (wm : WindowManager) (times : List Nat) : WindowManager :=
  times.foldl (fun w t => (wmCurrent w t).2.1) wm

theorem evictLoop_eq (ws : List Window) :
    evictLoop ws = (ws.drop (ws.length - 2), ws.take (ws.length - 2)) := by
  induction ws with
  | nil => rfl
  | cons w rest ih =>
    by_cases h : rest.length ≥ 2
    · have h1 : (w :: rest).length - 2 = (rest.length - 2) + 1 := by
        simp only [List.length_cons]; omega
      simp only [evictLoop, if_pos h, ih, h1, List.drop_succ_cons, List.take_succ_cons]
    · have h1 : rest.length - 1 = 0 := by omega
      simp [evictLoop, if_neg h, h1]

/-- C3: the window manager retains at most two windows.  Every call to
`Current` either returns the existing last window (when its start matches
the truncated current time) leaving the state unchanged, or creates a new
window, appends it, and closes the oldest windows so that exactly the most
recent two remain; consequently any state with at most two windows keeps
at most two, and every state reachable from a fresh manager holds at most
two windows. -/
theorem wmCurrent_at_most_two_windows :
    (∀ wm now,
      (∃ last, wm.windows.getLast? = some last
        ∧ last.start = truncateGo now wm.duration
        ∧ wmCurrent wm now = (last, wm, []))
      ∨ ((wmCurrent wm now).1 = createWindow wm (truncateGo now wm.duration)
        ∧ (wmCurrent wm now).2.1.windows
            = (wm.windows ++ [(wmCurrent wm now).1]).drop
                ((wm.windows ++ [(wmCurrent wm now).1]).length - 2)
        ∧ (wmCurrent wm now).2.2
            = (wm.windows ++ [(wmCurrent wm now).1]).take
                ((wm.windows ++ [(wmCurrent wm now).1]).length - 2)))
    ∧ (∀ wm now, wm.windows.length ≤ 2 → (wmCurrent wm now).2.1.windows.length ≤ 2)
    ∧ (∀ d times, (runCalls (NewWindowManager d) times).windows.length ≤ 2) := by
  have hdicho : ∀ wm now,
      (∃ last, wm.windows.getLast? = some last
        ∧ last.start = truncateGo now wm.duration
        ∧ wmCurrent wm now = (last, wm, []))
      ∨ ((wmCurrent wm now).1 = createWindow wm (truncateGo now wm.duration)
        ∧ (wmCurrent wm now).2.1.windows
            = (wm.windows ++ [(wmCurrent wm now).1]).drop
                ((wm.windows ++ [(wmCurrent wm now).1]).length - 2)
        ∧ (wmCurrent wm now).2.2
            = (wm.windows ++ [(wmCurrent wm now).1]).take
                ((wm.windows ++ [(wmCurrent wm now).1]).length - 2)) := by
    intro wm now
    cases hlast : wm.windows.getLast? with
    | some last =>
      by_cases hstart : last.start = truncateGo now wm.duration
      · exact Or.inl ⟨last, rfl, hstart, by
          simp only [wmCurrent, hlast, if_pos hstart]⟩
      · refine Or.inr ?_
        have hres : wmCurrent wm now =
            (createWindow wm (truncateGo now wm.duration),
             { wm with windows :=
                (evictLoop (wm.windows ++ [createWindow wm (truncateGo now wm.duration)])).1 },
             (evictLoop (wm.windows ++ [createWindow wm (truncateGo now wm.duration)])).2) := by
          simp only [wmCurrent, hlast, if_neg hstart]
        rw [hres, evictLoop_eq]
        exact ⟨rfl, rfl, rfl⟩
    | none =>
      refine Or.inr ?_
      have hres : wmCurrent wm now =
          (createWindow wm (truncateGo now wm.duration),
           { wm with windows :=
              (evictLoop (wm.windows ++ [createWindow wm (truncateGo now wm.duration)])).1 },
           (evictLoop (wm.windows ++ [createWindow wm (truncateGo now wm.duration)])).2) := by
        simp only [wmCurrent, hlast]
      rw [hres, evictLoop_eq]
      exact ⟨rfl, rfl, rfl⟩
  have hstep : ∀ wm now, wm.windows.length ≤ 2 →
      (wmCurrent wm now).2.1.windows.length ≤ 2 := by
    intro wm now hlen
    rcases hdicho wm now with ⟨last, _, _, heq⟩ | ⟨_, hkept, _⟩
    · rw [heq]; exact hlen
    · rw [hkept, List.length_drop]; omega
  refine ⟨hdicho, hstep, fun d times => ?_⟩
  have hgen : ∀ (ts : List Nat) (wm : WindowManager), wm.windows.length ≤ 2 →
      (runCalls wm ts).windows.length ≤ 2 := by
    intro ts
    induction ts with
    | nil => exact fun wm h => h
    | cons t rest ih =>
      intro wm h
      exact ih _ (hstep wm t h)
  exact hgen times (NewWindowManager d) (by simp [NewWindowManager])

/-- Witness for C3 at concrete inputs: three calls falling into three
distinct tumbling intervals keep at most two windows open. -/
theorem wmCurrent_at_most_two_windows_witness :
    ((wmCurrent (NewWindowManager 10) 25).2.1.windows.length ≤ 2)
    ∧ (runCalls (NewWindowManager 10) [5, 17, 23, 31]).windows.length ≤ 2 :=
  ⟨wmCurrent_at_most_two_windows.2.1 (NewWindowManager 10) 25 (by decide),
   wmCurrent_at_most_two_windows.2.2 10 [5, 17, 23, 31]⟩

/-! ## CSV reading and type inference

Models of the `strconv` stdlib parsers on their documented decimal
grammars (collaborators external to the spec).  Floating-point values are
the exact rationals they denote; the hexadecimal / inf / nan literal forms
and overflow-to-ErrRange behaviour on astronomically long inputs are
outside the model. -/

/-- Numeric value of a digit string (most significant first). -/
def digitsVal (ds : List Char) : Nat :=
  ds.foldl (fun acc c => acc * 10 + (c.toNat - '0'.toNat)) 0

/-- Leading-sign handling shared by the numeric parsers:
(isNegative, remaining characters). -/
def splitSign : List Char → Bool × List Char
  | [] => (false, [])
  | c :: rest =>
    if c = '+' then (false, rest)
    else if c = '-' then (true, rest)
    else (false, c :: rest)

/-- Models `strconv.ParseInt(s, 10, 64)`: optional sign, one or more
decimal digits, value within int64. -/
def goParseInt (s : String) : Option Int :=
  match splitSign s.data with
  | (neg, ds) =>
    if ds.isEmpty then none
    else if ds.all Char.isDigit then
      let v : Int := if neg then -(digitsVal ds : Int) else (digitsVal ds : Int)
      if -(2 ^ 63) ≤ v ∧ v ≤ 2 ^ 63 - 1 then some v else none
    else none

/-- Mantissa value: integer part plus fraction digits scaled down. -/
def mantissaVal (ip fp : List Char) : ℚ :=
  (digitsVal ip : ℚ) + (digitsVal fp : ℚ) / (10 : ℚ) ^ fp.length

/-- Exponent suffix of a float literal: empty, or `e`/`E` followed by an
optionally signed nonempty digit run reaching the end of the input. -/
def finishExp (neg : Bool) (m : ℚ) : List Char → Option ℚ
  | [] => some (if neg then -m else m)
  | e :: rest =>
    if e = 'e' ∨ e = 'E' then
      match splitSign rest with
      | (eneg, en) =>
        if en.isEmpty then none
        else if en.all Char.isDigit then
          some (if neg then
              -(if eneg then m / (10 : ℚ) ^ digitsVal en else m * (10 : ℚ) ^ digitsVal en)
            else
              (if eneg then m / (10 : ℚ) ^ digitsVal en else m * (10 : ℚ) ^ digitsVal en))
        else none
    else none

/-- Models `strconv.ParseFloat(s, 64)` on the decimal grammar:
optional sign, digits with an optional fractional part (at least one
mantissa digit), optional exponent. -/
def goParseFloat (s : String) : Option ℚ :=
  match splitSign s.data with
  | (neg, cs) =>
    let ip := cs.takeWhile Char.isDigit
    match cs.dropWhile Char.isDigit with
    | '.' :: rest2 =>
      let fp := rest2.takeWhile Char.isDigit
      if ip.isEmpty && fp.isEmpty then none
      else finishExp neg (mantissaVal ip fp) (rest2.dropWhile Char.isDigit)
    | rest1 =>
      if ip.isEmpty then none
      else finishExp neg (mantissaVal ip []) rest1

/-- Models `strconv.ParseBool`: the twelve accepted literals. -/
def goParseBool (s : String) : Option Bool :=
  if s = "1" ∨ s = "t" ∨ s = "T" ∨ s = "true" ∨ s = "TRUE" ∨ s = "True" then some true
  else if s = "0" ∨ s = "f" ∨ s = "F" ∨ s = "false" ∨ s = "FALSE" ∨ s = "False" then
    some false
  else none

/-- Embeds `inferType` (the FileSource CSV reader): try ParseFloat; on
success return an int64 when the text has no "." and ParseInt succeeds,
else the float; on failure try ParseBool, else keep the text. -/
def inferType (s : String) : GoValue :=
  match goParseFloat s with
  | some f =>
    if containsSubstr s "." = false then
      match goParseInt s with
      | some i => GoValue.vInt64 i
      | none => GoValue.vFloat64 f
    else GoValue.vFloat64 f
  | none =>
    match goParseBool s with
    | some b => GoValue.vBool b
    | none => GoValue.vText s

/-- The typing ladder exactly as the spec words it: parse-as-integer,
else parse-as-float, else parse-as-boolean, else text. -/
def ladderInferType (s : String) : GoValue :=
  match goParseInt s with
  | some i => GoValue.vInt64 i
  | none =>
    match goParseFloat s with
    | some f => GoValue.vFloat64 f
    | none =>
      match goParseBool s with
      | some b => GoValue.vBool b
      | none => GoValue.vText s

/-- Embeds the per-row record construction of `FileSource.readCSV`: each
header column at position `i` gets the typed value of field `i` (Go map
assignment; positions beyond the shorter of header/row are dropped). -/
def buildCSVRec (header row : List String) : Rec :=
  (header.zip row).foldl (fun r cv => recSet r cv.1 (inferType cv.2)) []

/-- Embeds `FileSource.readCSV`: the first row is the header; subsequent
rows map positionally; reading stops at the first malformed row
(`encoding/csv` rejects rows whose field count differs from the header). -/
def readCSV (rows : List (List String)) : List Rec :=
  match rows with
  | [] => []
  | header :: body =>
    (body.takeWhile (fun row => row.length == header.length)).map (buildCSVRec header)

/-! ## Equivalence of the code typing order and the spec ladder -/

theorem takeWhile_all_eq {l : List Char} (h : l.all Char.isDigit = true) :
    l.takeWhile Char.isDigit = l ∧ l.dropWhile Char.isDigit = [] := by
  induction l with
  | nil => exact ⟨rfl, rfl⟩
  | cons c cs ih =>
    rw [List.all_cons, Bool.and_eq_true] at h
    obtain ⟨h1, h2⟩ := ih h.2
    simp [List.takeWhile_cons, List.dropWhile_cons, h.1, h1, h2]

theorem singleton_infix_iff {c : Char} {l : List Char} : ([c] <:+: l) ↔ c ∈ l := by
  constructor
  · rintro ⟨s, t, rfl⟩
    simp
  · intro h
    obtain ⟨s, t, rfl⟩ := List.append_of_mem h
    exact ⟨s, t, by simp⟩

theorem splitSign_mem {cs : List Char} {neg : Bool} {ds : List Char}
    (h : splitSign cs = (neg, ds)) : ∀ c ∈ cs, c = '+' ∨ c = '-' ∨ c ∈ ds := by
  cases cs with
  | nil => intro c hc; cases hc
  | cons c0 rest =>
    intro c hc
    simp only [splitSign] at h
    by_cases h0 : c0 = '+'
    · rw [if_pos h0] at h
      cases h
      rcases List.mem_cons.mp hc with rfl | hm
      · exact Or.inl h0
      · exact Or.inr (Or.inr hm)
    · rw [if_neg h0] at h
      by_cases h1 : c0 = '-'
      · rw [if_pos h1] at h
        cases h
        rcases List.mem_cons.mp hc with rfl | hm
        · exact Or.inr (Or.inl h1)
        · exact Or.inr (Or.inr hm)
      · rw [if_neg h1] at h
        cases h
        exact Or.inr (Or.inr hc)

/-- When `strconv.ParseInt` accepts a string, `strconv.ParseFloat` accepts
it with the same numeric value, and the string contains no ".". -/
theorem goParseInt_float_compat {s : String} {i : Int} (h : goParseInt s = some i) :
    goParseFloat s = some (i : ℚ) ∧ containsSubstr s "." = false := by
  unfold goParseInt at h
  cases hsp : splitSign s.data with
  | mk neg ds =>
  simp only [hsp] at h
  by_cases hemp : ds.isEmpty
  · rw [if_pos hemp] at h
    cases h
  rw [if_neg hemp] at h
  by_cases hdig : ds.all Char.isDigit
  · rw [if_pos hdig] at h
    by_cases hrange :
        -(2 ^ 63) ≤ (if neg then -(digitsVal ds : Int) else (digitsVal ds : Int))
        ∧ (if neg then -(digitsVal ds : Int) else (digitsVal ds : Int)) ≤ 2 ^ 63 - 1
    · rw [if_pos hrange] at h
      have hi : i = (if neg then -(digitsVal ds : Int) else (digitsVal ds : Int)) :=
        (Option.some.injEq _ _ ▸ h).symm
      obtain ⟨htake, hdrop⟩ := takeWhile_all_eq hdig
      constructor
      · simp only [goParseFloat, hsp, htake, hdrop]
        have hm : mantissaVal ds [] = (digitsVal ds : ℚ) := by
          simp [mantissaVal, digitsVal]
        rw [if_neg hemp, hm]
        unfold finishExp
        rw [hi]
        cases neg <;> simp
      · refine decide_eq_false (fun hinf => ?_)
        have hmem : '.' ∈ s.data := by
          have hd : (".".data) = ['.'] := rfl
          rw [hd] at hinf
          exact singleton_infix_iff.mp hinf
        rcases splitSign_mem hsp '.' hmem with hc | hc | hc
        · cases hc
        · cases hc
        · have : Char.isDigit '.' = true := by
            have := List.all_eq_true.mp hdig
            exact this _ hc
          cases this
    · rw [if_neg hrange] at h
      cases h
  · rw [if_neg hdig] at h
    cases h

/-- C9: CSV typing — the code (ParseFloat first with the "." / ParseInt
refinement) types every field exactly as the spec ladder parse-as-integer,
else parse-as-float, else parse-as-boolean, else text; and for a header
row followed by rows of matching width, every subsequent row maps
positionally onto the header names with that typing. -/
theorem readCSV_positional_ladder (header : List String) (body : List (List String))
    (hlen : ∀ row ∈ body, row.length = header.length) :
    (∀ s, inferType s = ladderInferType s)
    ∧ readCSV (header :: body)
        = body.map (fun row =>
            (header.zip row).foldl (fun r cv => recSet r cv.1 (ladderInferType cv.2)) []) := by
  have hpoint : ∀ s, inferType s = ladderInferType s := by
    intro s
    cases hInt : goParseInt s with
    | some i =>
      obtain ⟨hF, hC⟩ := goParseInt_float_compat hInt
      simp [inferType, ladderInferType, hInt, hF, hC]
    | none =>
      cases hF : goParseFloat s with
      | none => simp [inferType, ladderInferType, hInt, hF]
      | some f =>
        simp only [inferType, ladderInferType, hInt, hF]
        split <;> rfl
  refine ⟨hpoint, ?_⟩
  have hfun : inferType = ladderInferType := funext hpoint
  have htake : body.takeWhile (fun row => row.length == header.length) = body := by
    induction body with
    | nil => rfl
    | cons row rest ih =>
      have h1 : (row.length == header.length) = true :=
        beq_iff_eq.mpr (hlen row (List.mem_cons_self row rest))
      rw [List.takeWhile_cons, h1]
      simp only [if_true]
      rw [ih (fun r hr => hlen r (List.mem_cons_of_mem row hr))]
  simp only [readCSV, htake]
  simp [buildCSVRec, hfun]

/-- Witness for C9 at a concrete delimited input (integer, boolean and
text fields). -/
theorem readCSV_positional_ladder_witness :
    (∀ row ∈ [["1", "Alice", "true"], ["7", "Bob", "x"]],
      row.length = ["id", "name", "ok"].length)
    ∧ ((∀ s, inferType s = ladderInferType s)
      ∧ readCSV (["id", "name", "ok"] :: [["1", "Alice", "true"], ["7", "Bob", "x"]])
          = [["1", "Alice", "true"], ["7", "Bob", "x"]].map (fun row =>
              (["id", "name", "ok"].zip row).foldl
                (fun r cv => recSet r cv.1 (ladderInferType cv.2)) [])) :=
  ⟨by decide, readCSV_positional_ladder ["id", "name", "ok"]
    [["1", "Alice", "true"], ["7", "Bob", "x"]] (by decide)⟩

/-! ## Query AST (internal/ast) -/

/-- The token types the translator inspects (`ast.TokenType`). -/
inductive TokenType where
  | EQ | NEQ | LT | LTE | GT | GTE
  | PLUS | MINUS | STAR | SLASH | PERCENT
  | AND | OR | NOT | LIKE
  | STRING | NUMERIC | TRUE | FALSE | NULL
deriving DecidableEq

/-- Expression nodes (`ast.Expression`). -/
inductive Expr where
  | binary (op : TokenType) (left right : Expr)
  | unary (op : TokenType) (operand : Expr)
  | func (name : String) (args : List Expr)
  | col (table column : String)
  | lit (ty : TokenType) (value : String)
  | star
  | isNull (e : Expr) (isNot : Bool)
  | between (e low high : Expr) (isNot : Bool)
  | inList (e : Expr) (values : List Expr) (isNot : Bool)
  | like (e pattern : Expr) (isNot : Bool)

/-- `ast.TableRef`: table name with optional alias. -/
structure TableRef where
  Name : String
  Alias : String

/-- `ast.FromClause`. -/
structure FromClause where
  Table : TableRef

inductive JoinType where
  | inner | left | right
deriving DecidableEq

/-- `ast.JoinClause`. -/
structure JoinClause where
  typ : JoinType
  Table : TableRef
  Condition : Expr

/-- One SELECT-list item (`ast.Column`): a possibly qualified star, or an
expression with an optional alias. -/
inductive Column where
  | star (tableRef : String)
  | expr (e : Expr) (al : String)

/-- `ast.OrderByExpr`. -/
structure OrderByExpr where
  e : Expr
  desc : Bool

/-- `ast.SelectStatement` (durations in nanoseconds as Go
`time.Duration`). -/
structure SelectStatement where
  Distinct : Bool
  Columns : List Column
  From : Option FromClause
  Joins : List JoinClause
  Where : Option Expr
  GroupBy : List Expr
  OrderBy : List OrderByExpr
  Limit : Option Int
  Over : Nat
  Every : Nat

/-! ## Access planner (AnalyzeBatchAccess and friends) -/

inductive SourceKind where
  | Static | Streaming
deriving DecidableEq

/-- A bound source as the planner sees it: its kind, and the optional
attachable capability `(DBPath, TableName)` of SQLite-file sources. -/
structure SrcModel where
  kind : SourceKind
  attach : Option (String × String)
deriving DecidableEq

/-- Embeds `BatchAccess` (iota order FullScan, Indexed, Attached). -/
inductive BatchAccess where
  | FullScan | Indexed | Attached
deriving DecidableEq

/-- Embeds `BatchTablePlan`; Go zero values are empty strings. -/
structure BatchTablePlan where
  Access : BatchAccess
  Schema : String
  SQLTable : String
  JoinCol : String
  StreamCol : String
  AttachPath : String
deriving DecidableEq

/-- Go map read with the zero-value default. -/
def assocGetD {α : Type _} (l : List (String × α)) (k : String) (dflt : α) : α :=
  match assocGet l k with
  | some v => v
  | none => dflt

/-- The alias-to-source-name map built at the top of `AnalyzeBatchAccess`:
FROM first, then each JOIN; a missing alias defaults to the table name. -/
def buildAliasMap (stmt : SelectStatement) : List (String × String) :=
  let m1 :=
    match stmt.From with
    | some fc =>
      assocSet [] (if fc.Table.Alias = "" then fc.Table.Name else fc.Table.Alias)
        fc.Table.Name
    | none => []
  stmt.Joins.foldl
    (fun m j =>
      assocSet m (if j.Table.Alias = "" then j.Table.Name else j.Table.Alias)
        j.Table.Name)
    m1

/-- Embeds `extractEquiJoinCols`: from a simple equi-condition
`col = col`, the batch-side and other-side column names, or `("", "")`.
The `streamingNames` parameter is received but never consulted, exactly as
in the source. -/
def extractEquiJoinCols (cond : Expr) (batchAlias : String)
    (aliasToSource : List (String × String)) (streamingNames : List String) :
    String × String :=
  match cond with
  | .binary op (.col lt lc) (.col rt rc) =>
    if op = TokenType.EQ then
      if lt = batchAlias ∧ ¬(rt = batchAlias) then (lc, rc)
      else if rt = batchAlias ∧ ¬(lt = batchAlias) then (rc, lc)
      else ("", "")
    else ("", "")
  | _ => ("", "")

/-- The JOIN-scanning loop of `findEquiJoin`: the first join bound to the
batch source decides — a simple equi-condition yields the Indexed plan,
anything else returns nil immediately. -/
def findEquiJoinLoop (joins : List JoinClause) (batchName : String)
    (aliasToSource : List (String × String)) (streamingNames : List String) :
    Option BatchTablePlan :=
  match joins with
  | [] => none
  | j :: rest =>
    let joinAlias := if j.Table.Alias = "" then j.Table.Name else j.Table.Alias
    if assocGetD aliasToSource joinAlias "" = batchName then
      let p := extractEquiJoinCols j.Condition joinAlias aliasToSource streamingNames
      if p.1 = "" then none
      else some { Access := BatchAccess.Indexed, Schema := "", SQLTable := batchName,
                  JoinCol := p.1, StreamCol := p.2, AttachPath := "" }
    else findEquiJoinLoop rest batchName aliasToSource streamingNames

/-- Embeds `findEquiJoin`: nil when the batch source is the FROM primary,
else scan the JOIN clauses. -/
def findEquiJoin (stmt : SelectStatement) (batchName : String)
    (aliasToSource : List (String × String)) (streamingNames : List String) :
    Option BatchTablePlan :=
  match stmt.From with
  | some fc =>
    if assocGetD aliasToSource fc.Table.Name "" = batchName then none
    else if fc.Table.Alias ≠ "" ∧ assocGetD aliasToSource fc.Table.Alias "" = batchName
      then none
    else findEquiJoinLoop stmt.Joins batchName aliasToSource streamingNames
  | none => findEquiJoinLoop stmt.Joins batchName aliasToSource streamingNames

/-- The per-source body of the planning loop in `AnalyzeBatchAccess`:
attachable sources get Attach, detected equi-joins get Indexed, everything
else falls through to FullScan. -/
def planForBatchSource (stmt : SelectStatement) (sources : List (String × SrcModel))
    (aliasToSource : List (String × String)) (streamingNames : List String)
    (name : String) : BatchTablePlan :=
  match (assocGet sources name).bind (fun src => src.attach) with
  | some att =>
    { Access := BatchAccess.Attached, Schema := "_src_" ++ name, SQLTable := att.2,
      JoinCol := "", StreamCol := "", AttachPath := att.1 }
  | none =>
    match findEquiJoin stmt name aliasToSource streamingNames with
    | some p => p
    | none =>
      { Access := BatchAccess.FullScan, Schema := "static", SQLTable := name,
        JoinCol := "", StreamCol := "", AttachPath := "" }

/-- Embeds `AnalyzeBatchAccess` (the streaming-mode planner): build the
alias map, split sources into streaming and batch names, and assign every
batch source a plan. -/
def AnalyzeBatchAccess (stmt : SelectStatement) (sources : List (String × SrcModel)) :
    List (String × BatchTablePlan) :=
  let aliasToSource := buildAliasMap stmt
  let streamingNames := sources.filterMap
    (fun p => if p.2.kind = SourceKind.Streaming then some p.1 else none)
  let batchNames := sources.filterMap
    (fun p => if p.2.kind = SourceKind.Streaming then none else some p.1)
  batchNames.foldl
    (fun acc name =>
      assocSet acc name (planForBatchSource stmt sources aliasToSource streamingNames name))
    []

/-- Embeds `BuildTableSchemas`: source name to schema. -/
def BuildTableSchemas (plan : List (String × BatchTablePlan)) : List (String × String) :=
  plan.map (fun p => (p.1, p.2.Schema))

/-! ## AST-to-SQL translation -/

/-- One character doubled wherever it occurs (Go
`strings.ReplaceAll(s, q, qq)` for the two quoting helpers). -/
def escDouble (q : Char) (cs : List Char) : List Char :=
  cs.flatMap (fun c => if c = q then [q, q] else [c])

/-- Embeds `quoteIdent`: double-quote an identifier, doubling embedded
double quotes; a bare `*` passes through. -/
def quoteIdent (s : String) : String :=
  if s = "*" then "*" else String.mk ('"' :: escDouble '"' s.data ++ ['"'])

/-- Embeds `quoteLiteral`: single-quote a string, doubling embedded single
quotes. -/
def quoteLiteral (s : String) : String :=
  String.mk ('\x27' :: escDouble '\x27' s.data ++ ['\x27'])

/-- Embeds `tokenToSQLOp`. -/
def tokenToSQLOp : TokenType → String
  | .EQ => "="
  | .NEQ => "!="
  | .LT => "<"
  | .LTE => "<="
  | .GT => ">"
  | .GTE => ">="
  | .PLUS => "+"
  | .MINUS => "-"
  | .STAR => "*"
  | .SLASH => "/"
  | .PERCENT => "%"
  | .AND => "AND"
  | .OR => "OR"
  | .LIKE => "LIKE"
  | _ => "?"

mutual
/-- Embeds `exprToSQL` (the `st` schema map is carried but, as in the
source, only threaded through recursive calls). -/
def exprToSQL (e : Expr) (st : List (String × String)) : String :=
  match e with
  | .binary op l r =>
    "(" ++ exprToSQL l st ++ " " ++ tokenToSQLOp op ++ " " ++ exprToSQL r st ++ ")"
  | .unary op operand =>
    if op = TokenType.NOT then "(NOT " ++ exprToSQL operand st ++ ")"
    else "(-" ++ exprToSQL operand st ++ ")"
  | .col t c =>
    if t ≠ "" then quoteIdent t ++ "." ++ quoteIdent c else quoteIdent c
  | .lit ty v =>
    match ty with
    | .STRING => v
    | .NUMERIC => v
    | .TRUE => "1"
    | .FALSE => "0"
    | .NULL => "NULL"
    | _ => "?"
  | .star => "*"
  | .func name args => name ++ "(" ++ exprListToSQL args st ++ ")"
  | .isNull e n =>
    if n then "(" ++ exprToSQL e st ++ " IS NOT NULL)"
    else "(" ++ exprToSQL e st ++ " IS NULL)"
  | .between e low high n =>
    "(" ++ exprToSQL e st ++ " " ++ (if n then "NOT " else "")
      ++ "BETWEEN " ++ exprToSQL low st ++ " AND " ++ exprToSQL high st ++ ")"
  | .inList e values n =>
    "(" ++ exprToSQL e st ++ " " ++ (if n then "NOT " else "")
      ++ "IN (" ++ exprListToSQL values st ++ "))"
  | .like e pat n =>
    "(" ++ exprToSQL e st ++ " " ++ (if n then "NOT " else "")
      ++ "LIKE " ++ exprToSQL pat st ++ ")"

/-- `strings.Join(..., ", ")` over translated expressions. -/
def exprListToSQL (es : List Expr) (st : List (String × String)) : String :=
  match es with
  | [] => ""
  | [e] => exprToSQL e st
  | e :: rest => exprToSQL e st ++ ", " ++ exprListToSQL rest st
end

/-- Embeds `tableRefToSQLWithPlan`: rewrite a table reference to
`<schema>.<actual_table>` when its plan names a nonempty schema, falling
back from the plan's SQL table name to the source name when empty; bare
quoting otherwise; alias appended quoted. -/
def tableRefToSQLWithPlan (t : TableRef) (tableSchemas : List (String × String))
    (plans : List (String × BatchTablePlan)) : String :=
  let base :=
    match assocGet tableSchemas t.Name with
    | some schema =>
      if schema = "" then quoteIdent t.Name
      else
        let sqlTable :=
          match assocGet plans t.Name with
          | some p => if p.SQLTable = "" then t.Name else p.SQLTable
          | none => t.Name
        quoteIdent schema ++ "." ++ quoteIdent sqlTable
    | none => quoteIdent t.Name
  if t.Alias = "" then base else base ++ " " ++ quoteIdent t.Alias

/-- SELECT-list rendering shared by `ToSQLWithPlans` (the `i > 0` comma
logic of the Go builder). -/
def columnsToSQL (cols : List Column) (st : List (String × String)) : String :=
  match cols with
  | [] => ""
  | [c] => columnToSQL c st
  | c :: rest => columnToSQL c st ++ ", " ++ columnsToSQL rest st
where
  columnToSQL (c : Column) (st : List (String × String)) : String :=
    match c with
    | .star tr => if tr ≠ "" then tr ++ ".*" else "*"
    | .expr e al =>
      exprToSQL e st ++ (if al ≠ "" then " AS " ++ quoteIdent al else "")

/-- ORDER BY rendering of `ToSQLWithPlans`. -/
def orderByToSQL (obs : List OrderByExpr) (st : List (String × String)) : String :=
  match obs with
  | [] => ""
  | [ob] => exprToSQL ob.e st ++ (if ob.desc then " DESC" else "")
  | ob :: rest =>
    exprToSQL ob.e st ++ (if ob.desc then " DESC" else "") ++ ", " ++ orderByToSQL rest st

/-- Embeds `ToSQLWithPlans`: the full SELECT translation with plan-aware
table references. -/
def ToSQLWithPlans (sel : SelectStatement) (tableSchemas : List (String × String))
    (plans : List (String × BatchTablePlan)) : String :=
  "SELECT " ++ (if sel.Distinct then "DISTINCT " else "")
    ++ columnsToSQL sel.Columns tableSchemas
    ++ (match sel.From with
        | some fc => " FROM " ++ tableRefToSQLWithPlan fc.Table tableSchemas plans
        | none => "")
    ++ String.join (sel.Joins.map (fun j =>
        (match j.typ with
         | .left => " LEFT JOIN "
         | .right => " RIGHT JOIN "
         | .inner => " JOIN ")
        ++ tableRefToSQLWithPlan j.Table tableSchemas plans
        ++ " ON " ++ exprToSQL j.Condition tableSchemas))
    ++ (match sel.Where with
        | some w => " WHERE " ++ exprToSQL w tableSchemas
        | none => "")
    ++ (if sel.GroupBy.isEmpty then "" else " GROUP BY " ++ exprListToSQL sel.GroupBy tableSchemas)
    ++ (if sel.OrderBy.isEmpty then "" else " ORDER BY " ++ orderByToSQL sel.OrderBy tableSchemas)
    ++ (match sel.Limit with
        | some n => " LIMIT " ++ toString n
        | none => "")

/-! ## C2: the planner and the batch-batch equi-join

Concrete input: `SELECT * FROM s JOIN b1 ON s.x = b1.x JOIN b2 ON
b1.x = b2.x OVER 1s` with `s` streaming and `b1`, `b2` plain batch
sources.  The ON condition of `b2` compares it against the column of the
other batch source `b1`, not of a streaming source. -/

def twoBatchJoinStmt : SelectStatement :=
  { Distinct := false
    Columns := [Column.star ""]
    From := some { Table := { Name := "s", Alias := "" } }
    Joins :=
      [ { typ := JoinType.inner, Table := { Name := "b1", Alias := "" },
          Condition := Expr.binary TokenType.EQ (Expr.col "s" "x") (Expr.col "b1" "x") },
        { typ := JoinType.inner, Table := { Name := "b2", Alias := "" },
          Condition := Expr.binary TokenType.EQ (Expr.col "b1" "x") (Expr.col "b2" "x") } ]
    Where := none
    GroupBy := []
    OrderBy := []
    Limit := none
    Over := 1000000000
    Every := 0 }

def twoBatchJoinSources : List (String × SrcModel) :=
  [("s", { kind := SourceKind.Streaming, attach := none }),
   ("b1", { kind := SourceKind.Static, attach := none }),
   ("b2", { kind := SourceKind.Static, attach := none })]

/-- C2: evaluation of the planner at the failing input.  `b2` is
referenced only in a JOIN whose other side `b1.x` is a column of a batch
source — the spec requires the FullScan fallback, but the planner assigns
Indexed probing the streaming record's "x" attribute, because
`extractEquiJoinCols` never consults its `streamingNames` parameter. -/
theorem planner_indexes_against_batch_column :
    assocGet (AnalyzeBatchAccess twoBatchJoinStmt twoBatchJoinSources) "b2"
      = some { Access := BatchAccess.Indexed, Schema := "", SQLTable := "b2",
               JoinCol := "x", StreamCol := "x", AttachPath := "" }
    ∧ (assocGet twoBatchJoinSources "b1").map SrcModel.kind = some SourceKind.Static
    ∧ "b1" ∉ twoBatchJoinSources.filterMap
        (fun p => if p.2.kind = SourceKind.Streaming then some p.1 else none) := by
  refine ⟨rfl, rfl, ?_⟩
  decide

/-! ## C6: quoting helpers invert, literals pass through, plans rewrite -/

/-- Decoder for a `q`-quoted body with doubled-`q` escapes (the SQLite
lexical rule the generated SQL must satisfy); inverse of `escDouble`. -/
def unescDouble (q : Char) : List Char → Option (List Char)
  | [] => none
  | [c] => if c = q then some [] else none
  | c :: c2 :: rest =>
    if c = q then
      if c2 = q then (unescDouble q rest).map (fun l => q :: l) else none
    else (unescDouble q (c2 :: rest)).map (fun l => c :: l)

/-- Decoder for a full quoted token: a leading `q`, then an escaped body
closed by a final `q`. -/
def unquoteWith (q : Char) (s : String) : Option String :=
  match s.data with
  | c :: rest => if c = q then (unescDouble q rest).map String.mk else none
  | [] => none

theorem unescDouble_escDouble (q : Char) (body : List Char) :
    unescDouble q (escDouble q body ++ [q]) = some body := by
  induction body with
  | nil => simp [escDouble, unescDouble]
  | cons c bs ih =>
    by_cases hc : c = q
    · subst hc
      have hsh : escDouble c (c :: bs) ++ [c] = c :: c :: (escDouble c bs ++ [c]) := by
        simp [escDouble]
      rw [hsh]
      simp [unescDouble, ih]
    · have hsh : escDouble q (c :: bs) ++ [q] = c :: (escDouble q bs ++ [q]) := by
        simp [escDouble, hc]
      rw [hsh]
      cases hrest : escDouble q bs ++ [q] with
      | nil => exact absurd hrest (by simp)
      | cons c2 rest2 =>
        rw [hrest] at ih
        simp [unescDouble, hc, ih]

theorem quoteIdent_roundtrip (s : String) (h : s ≠ "*") :
    unquoteWith '"' (quoteIdent s) = some s := by
  cases s with
  | mk cs =>
    have hq : quoteIdent ⟨cs⟩ = String.mk ('"' :: escDouble '"' cs ++ ['"']) := by
      rw [quoteIdent, if_neg h]
    rw [hq]
    show (unescDouble '"' (escDouble '"' cs ++ ['"'])).map String.mk = some ⟨cs⟩
    rw [unescDouble_escDouble]
    rfl

theorem quoteLiteral_roundtrip (s : String) :
    unquoteWith '\x27' (quoteLiteral s) = some s := by
  cases s with
  | mk cs =>
    show (unescDouble '\x27' (escDouble '\x27' cs ++ ['\x27'])).map String.mk = some ⟨cs⟩
    rw [unescDouble_escDouble]
    rfl

/-- C6 counterexample: string literals are NOT single-quoted with doubled
single-quote escapes by the translator.  The lexer hands the parser the
raw literal (backslash escapes included) and `exprToSQL` emits it
verbatim; the emitted text for the lexed literal of `O\x27Brien` is not
`quoteLiteral` of any body. -/
theorem exprToSQL_string_literal_not_requoted :
    exprToSQL (Expr.lit TokenType.STRING "\x27O\\\x27Brien\x27") [] = "\x27O\\\x27Brien\x27"
    ∧ ¬ ∃ body, quoteLiteral body = "\x27O\\\x27Brien\x27" := by
  refine ⟨rfl, ?_⟩
  rintro ⟨body, hb⟩
  have h1 : unquoteWith '\x27' (quoteLiteral body) = some body :=
    quoteLiteral_roundtrip body
  rw [hb] at h1
  have h2 : unquoteWith '\x27' "\x27O\\\x27Brien\x27" = none := rfl
  rw [h2] at h1
  cases h1

/-- Shape of every plan `findEquiJoinLoop` can return. -/
theorem findEquiJoinLoop_shape {joins : List JoinClause} {batchName : String}
    {a2s : List (String × String)} {strN : List String} {p : BatchTablePlan}
    (h : findEquiJoinLoop joins batchName a2s strN = some p) :
    p.Access = BatchAccess.Indexed ∧ p.Schema = "" ∧ p.SQLTable = batchName := by
  induction joins with
  | nil => cases h
  | cons j rest ih =>
    rw [findEquiJoinLoop] at h
    by_cases hj : assocGetD a2s (if j.Table.Alias = "" then j.Table.Name else j.Table.Alias) ""
        = batchName
    · rw [if_pos hj] at h
      by_cases hcol : (extractEquiJoinCols j.Condition
          (if j.Table.Alias = "" then j.Table.Name else j.Table.Alias) a2s strN).1 = ""
      · rw [if_pos hcol] at h
        cases h
      · rw [if_neg hcol] at h
        cases h
        exact ⟨rfl, rfl, rfl⟩
    · rw [if_neg hj] at h
      exact ih h

/-- Shape of every plan `findEquiJoin` can return. -/
theorem findEquiJoin_shape {stmt : SelectStatement} {batchName : String}
    {a2s : List (String × String)} {strN : List String} {p : BatchTablePlan}
    (h : findEquiJoin stmt batchName a2s strN = some p) :
    p.Access = BatchAccess.Indexed ∧ p.Schema = "" ∧ p.SQLTable = batchName := by
  rw [findEquiJoin] at h
  cases hfrom : stmt.From with
  | none =>
    simp only [hfrom] at h
    exact findEquiJoinLoop_shape h
  | some fc =>
    simp only [hfrom] at h
    by_cases h1 : assocGetD a2s fc.Table.Name "" = batchName
    · rw [if_pos h1] at h
      cases h
    · rw [if_neg h1] at h
      by_cases h2 : fc.Table.Alias ≠ "" ∧ assocGetD a2s fc.Table.Alias "" = batchName
      · rw [if_pos h2] at h
        cases h
      · rw [if_neg h2] at h
        exact findEquiJoinLoop_shape h

/-- Shape of every plan the per-source planning body can produce. -/
theorem planForBatchSource_shape (stmt : SelectStatement)
    (srcs : List (String × SrcModel)) (a2s : List (String × String))
    (strN : List String) (name : String) :
    (planForBatchSource stmt srcs a2s strN name).Access = BatchAccess.Attached
      ∧ (planForBatchSource stmt srcs a2s strN name).Schema = "_src_" ++ name
    ∨ (planForBatchSource stmt srcs a2s strN name).Access = BatchAccess.Indexed
      ∧ (planForBatchSource stmt srcs a2s strN name).Schema = ""
      ∧ (planForBatchSource stmt srcs a2s strN name).SQLTable = name
    ∨ (planForBatchSource stmt srcs a2s strN name).Access = BatchAccess.FullScan
      ∧ (planForBatchSource stmt srcs a2s strN name).Schema = "static"
      ∧ (planForBatchSource stmt srcs a2s strN name).SQLTable = name := by
  unfold planForBatchSource
  cases hatt : (assocGet srcs name).bind (fun src => src.attach) with
  | some att => exact Or.inl ⟨rfl, rfl⟩
  | none =>
    cases hfind : findEquiJoin stmt name a2s strN with
    | some p =>
      obtain ⟨hA, hS, hT⟩ := findEquiJoin_shape hfind
      exact Or.inr (Or.inl ⟨hA, hS, hT⟩)
    | none => exact Or.inr (Or.inr ⟨rfl, rfl, rfl⟩)

/-- Every binding in an `assocSet` fold satisfies the per-key property of
the inserted values. -/
theorem assocGet_foldl_setP {α : Type _} (P : String → α → Prop) (f : String → α)
    (names : List String) (acc : List (String × α))
    (hacc : ∀ k v, assocGet acc k = some v → P k v) (hf : ∀ k, P k (f k)) :
    ∀ k v, assocGet (names.foldl (fun m n => assocSet m n (f n)) acc) k = some v → P k v := by
  induction names generalizing acc with
  | nil => exact hacc
  | cons n rest ih =>
    intro k v h
    refine ih (assocSet acc n (f n)) (fun k' v' h' => ?_) k v h
    by_cases hk : k' = n
    · subst hk
      rw [assocGet_set_self] at h'
      cases h'
      exact hf k'
    · rw [assocGet_set_ne acc n k' (f n) hk] at h'
      exact hacc k' v' h'

/-- Shape of every plan `AnalyzeBatchAccess` records: Attach under
`_src_<name>`, Indexed bare (empty schema), or FullScan under `static`
with the source name as table. -/
theorem analyzeBatchAccess_shape (stmt : SelectStatement)
    (srcs : List (String × SrcModel)) :
    ∀ name p, assocGet (AnalyzeBatchAccess stmt srcs) name = some p →
      p.Access = BatchAccess.Attached ∧ p.Schema = "_src_" ++ name
      ∨ p.Access = BatchAccess.Indexed ∧ p.Schema = "" ∧ p.SQLTable = name
      ∨ p.Access = BatchAccess.FullScan ∧ p.Schema = "static" ∧ p.SQLTable = name := by
  intro name p h
  unfold AnalyzeBatchAccess at h
  have := assocGet_foldl_setP
    (fun k v =>
      v.Access = BatchAccess.Attached ∧ v.Schema = "_src_" ++ k
      ∨ v.Access = BatchAccess.Indexed ∧ v.Schema = "" ∧ v.SQLTable = k
      ∨ v.Access = BatchAccess.FullScan ∧ v.Schema = "static" ∧ v.SQLTable = k)
    (planForBatchSource stmt srcs (buildAliasMap stmt)
      (srcs.filterMap (fun q => if q.2.kind = SourceKind.Streaming then some q.1 else none)))
    (srcs.filterMap (fun q => if q.2.kind = SourceKind.Streaming then none else some q.1))
    [] (fun _ _ hfalse => by cases hfalse)
    (fun k => planForBatchSource_shape stmt srcs _ _ k)
  exact this name p h

theorem assocGet_BuildTableSchemas (plans : List (String × BatchTablePlan))
    (name : String) :
    assocGet (BuildTableSchemas plans) name
      = (assocGet plans name).map BatchTablePlan.Schema := by
  induction plans with
  | nil => rfl
  | cons hd tl ih =>
    obtain ⟨k, p⟩ := hd
    by_cases hk : k = name
    · subst hk
      simp [BuildTableSchemas, assocGet, List.find?]
    · have hb : (k == name) = false := beq_false_of_ne hk
      simp only [BuildTableSchemas, List.map_cons] at ih ⊢
      simp only [assocGet, List.find?, hb] at ih ⊢
      exact ih

/-- C6 as amended: the generated SQL double-quotes identifiers with
doubled embedded double quotes wherever it quotes (losslessly: the quoted
token decodes back to the identifier), `quoteLiteral` single-quotes with
doubled single-quote escapes (used for ATTACH paths), boolean literals
TRUE/FALSE map to 1/0, string literals are emitted verbatim in their lexed
single-quoted form (not re-escaped), and each table reference is rewritten
per its plan: `static.<name>` for FullScan, `_src_<name>.<underlying>` for
Attach (falling back to the source name when the plan's table is empty),
and a bare window-local name for Indexed and for streaming tables absent
from the plan map. -/
theorem translation_contract :
    (∀ s, s ≠ "*" → unquoteWith '"' (quoteIdent s) = some s)
    ∧ (∀ s, unquoteWith '\x27' (quoteLiteral s) = some s)
    ∧ (∀ v st, exprToSQL (Expr.lit TokenType.TRUE v) st = "1"
        ∧ exprToSQL (Expr.lit TokenType.FALSE v) st = "0"
        ∧ exprToSQL (Expr.lit TokenType.STRING v) st = v)
    ∧ (∀ stmt srcs name p,
        assocGet (AnalyzeBatchAccess stmt srcs) name = some p →
          (p.Access = BatchAccess.FullScan →
            tableRefToSQLWithPlan { Name := name, Alias := "" }
                (BuildTableSchemas (AnalyzeBatchAccess stmt srcs))
                (AnalyzeBatchAccess stmt srcs)
              = quoteIdent "static" ++ "." ++ quoteIdent name)
          ∧ (p.Access = BatchAccess.Attached →
            tableRefToSQLWithPlan { Name := name, Alias := "" }
                (BuildTableSchemas (AnalyzeBatchAccess stmt srcs))
                (AnalyzeBatchAccess stmt srcs)
              = quoteIdent ("_src_" ++ name) ++ "."
                  ++ quoteIdent (if p.SQLTable = "" then name else p.SQLTable))
          ∧ (p.Access = BatchAccess.Indexed →
            tableRefToSQLWithPlan { Name := name, Alias := "" }
                (BuildTableSchemas (AnalyzeBatchAccess stmt srcs))
                (AnalyzeBatchAccess stmt srcs)
              = quoteIdent name))
    ∧ (∀ stmt srcs name,
        assocGet (AnalyzeBatchAccess stmt srcs) name = none →
          tableRefToSQLWithPlan { Name := name, Alias := "" }
              (BuildTableSchemas (AnalyzeBatchAccess stmt srcs))
              (AnalyzeBatchAccess stmt srcs)
            = quoteIdent name) := by
  refine ⟨quoteIdent_roundtrip, quoteLiteral_roundtrip,
    fun v st => ⟨rfl, rfl, rfl⟩, ?_, ?_⟩
  · intro stmt srcs name p h
    have hschema := assocGet_BuildTableSchemas (AnalyzeBatchAccess stmt srcs) name
    rw [h] at hschema
    rcases analyzeBatchAccess_shape stmt srcs name p h with
      ⟨hA, hS⟩ | ⟨hA, hS, hT⟩ | ⟨hA, hS, hT⟩
    · -- Attached
      refine ⟨fun hc => ?_, fun _ => ?_, fun hc => ?_⟩
      · rw [hA] at hc; cases hc
      · have hne : ("_src_" ++ name) ≠ "" := by
          intro hh
          have hlen := congrArg String.length hh
          rw [String.length_append] at hlen
          have h5 : "_src_".length = 5 := rfl
          have h0 : String.length "" = 0 := rfl
          rw [h5, h0] at hlen
          omega
        simp [tableRefToSQLWithPlan, hschema, h, hS, hne]
      · rw [hA] at hc; cases hc
    · -- Indexed
      refine ⟨fun hc => ?_, fun hc => ?_, fun _ => ?_⟩
      · rw [hA] at hc; cases hc
      · rw [hA] at hc; cases hc
      · simp [tableRefToSQLWithPlan, hschema, h, hS]
    · -- FullScan
      refine ⟨fun _ => ?_, fun hc => ?_, fun hc => ?_⟩
      · have hstatic : ("static" : String) ≠ "" := by decide
        simp [tableRefToSQLWithPlan, hschema, h, hS, hT, hstatic]
      · rw [hA] at hc; cases hc
      · rw [hA] at hc; cases hc
  · intro stmt srcs name h
    have hschema := assocGet_BuildTableSchemas (AnalyzeBatchAccess stmt srcs) name
    rw [h] at hschema
    simp [tableRefToSQLWithPlan, hschema]

/-- Witness for the amended C6 at concrete inputs: a quoted identifier and
literal decode back, TRUE/FALSE/STRING literals render as claimed, and the
Indexed plan of `b2` in the two-batch-join query renders bare while the
streaming source `s` (absent from the plan map) also renders bare. -/
theorem translation_contract_witness :
    unquoteWith '"' (quoteIdent "us\"ers") = some "us\"ers"
    ∧ unquoteWith '\x27' (quoteLiteral "a\x27b") = some "a\x27b"
    ∧ exprToSQL (Expr.lit TokenType.TRUE "TRUE") [] = "1"
    ∧ tableRefToSQLWithPlan { Name := "b2", Alias := "" }
        (BuildTableSchemas (AnalyzeBatchAccess twoBatchJoinStmt twoBatchJoinSources))
        (AnalyzeBatchAccess twoBatchJoinStmt twoBatchJoinSources)
      = quoteIdent "b2"
    ∧ tableRefToSQLWithPlan { Name := "s", Alias := "" }
        (BuildTableSchemas (AnalyzeBatchAccess twoBatchJoinStmt twoBatchJoinSources))
        (AnalyzeBatchAccess twoBatchJoinStmt twoBatchJoinSources)
      = quoteIdent "s" :=
  ⟨translation_contract.1 "us\"ers" (by decide),
   translation_contract.2.1 "a\x27b",
   (translation_contract.2.2.1 "TRUE" []).1,
   (translation_contract.2.2.2.1 twoBatchJoinStmt twoBatchJoinSources "b2"
      { Access := BatchAccess.Indexed, Schema := "", SQLTable := "b2",
        JoinCol := "x", StreamCol := "x", AttachPath := "" } (by decide)).2.2 rfl,
   translation_contract.2.2.2.2 twoBatchJoinStmt twoBatchJoinSources "s" (by decide)⟩

/-! ## C1: on-demand indexed materialisation in the execution loop -/

/-- Embeds `IndexedTable`: the Go-side hash map of batch rows keyed on the
normalised join column. -/
structure IndexedTable where
  name : String
  joinCol : String
  streamCol : String
  records : List (GoValue × List Rec)

/-- Go map read `records[key]` with the nil default. -/
def idxGet (m : List (GoValue × List Rec)) (k : GoValue) : List Rec :=
  match m with
  | [] => []
  | (k', rs) :: rest => if k' = k then rs else idxGet rest k

/-- Go `records[key] = append(records[key], rec)`. -/
def idxAppend (m : List (GoValue × List Rec)) (k : GoValue) (r : Rec) :
    List (GoValue × List Rec) :=
  match m with
  | [] => [(k, [r])]
  | (k', rs) :: rest =>
    if k' = k then (k, rs ++ [r]) :: rest else (k', rs) :: idxAppend rest k r

/-- Embeds the index construction of `Engine.executeStreaming` for an
`AccessIndexed` plan: every batch record with a non-nil normalised join
key is appended under that key. -/
def buildIndex (name joinCol streamCol : String) (recs : List Rec) : IndexedTable :=
  { name := name, joinCol := joinCol, streamCol := streamCol,
    records := recs.foldl
      (fun m r =>
        match goKey r joinCol with
        | none => m
        | some k => idxAppend m k r)
      [] }

/-- The `for _, rec := range idx.records[key]` insertion loop of the
execution loop, with its error wrapping. -/
def insertIndexedRows (db : DB) (t : String) (rs : List Rec) : Except String DB :=
  match rs with
  | [] => Except.ok db
  | r :: rest =>
    match insertRecord db t r with
    | Except.ok db' => insertIndexedRows db' t rest
    | Except.error e => Except.error ("insert indexed " ++ t ++ ": " ++ e)

/-- One indexed table's lazy-materialisation step (engine.go lines
279-293): derive the probe key from the streaming record; skip when nil or
already materialised; otherwise insert every matching batch row and record
the key. -/
def processIndexed (w : Window) (rec : Rec) (idx : IndexedTable) :
    Except String Window :=
  match goKey rec idx.streamCol with
  | none => Except.ok w
  | some key =>
    if w.hasKey idx.name key then Except.ok w
    else
      match insertIndexedRows w.db idx.name (idxGet idx.records key) with
      | Except.error e => Except.error e
      | Except.ok db' => Except.ok (Window.markKey { w with db := db' } idx.name key)

/-- The `for _, idx := range indexedTables` loop. -/
def processIndexedList (idxs : List IndexedTable) (w : Window) (rec : Rec) :
    Except String Window :=
  match idxs with
  | [] => Except.ok w
  | idx :: rest =>
    match processIndexed w rec idx with
    | Except.ok w' => processIndexedList rest w' rec
    | Except.error e => Except.error e

/-- Embeds the per-record body of the streaming execution loop (steps 1-3:
insert the tagged record into its table, then materialise indexed
matches). -/
def processRecord (idxs : List IndexedTable) (w : Window) (table : String)
    (rec : Rec) : Except String Window :=
  match insertRecord w.db table rec with
  | Except.error e => Except.error ("insert: " ++ e)
  | Except.ok db1 => processIndexedList idxs { w with db := db1 } rec

/-- Invariant (I3): the rows of an indexed source present in a window are
exactly the bound rows of the source whose join key has been recorded in
the window's materialised-keys set for that source. -/
def I3 (idx : IndexedTable) (w : Window) : Prop :=
  ∀ row, row ∈ rowsOf w.db idx.name ↔
    ∃ k r, w.hasKey idx.name k = true ∧ r ∈ idxGet idx.records k ∧ row = bindRec r

/-- Rows stored under an index key are never empty records (they contain
at least the join column). -/
def IdxWF (idx : IndexedTable) : Prop :=
  ∀ k r, r ∈ idxGet idx.records k → r ≠ []

/-! ### Index-map lemmas -/

theorem idxGet_append_self (m : List (GoValue × List Rec)) (k : GoValue) (r : Rec) :
    idxGet (idxAppend m k r) k = idxGet m k ++ [r] := by
  induction m with
  | nil => simp [idxGet, idxAppend]
  | cons hd tl ih =>
    obtain ⟨k', rs⟩ := hd
    by_cases hk : k' = k
    · subst hk
      simp [idxGet, idxAppend]
    · simp [idxGet, idxAppend, hk, ih]

theorem idxGet_append_ne (m : List (GoValue × List Rec)) (k k' : GoValue) (r : Rec)
    (h : k' ≠ k) : idxGet (idxAppend m k r) k' = idxGet m k' := by
  induction m with
  | nil => simp [idxGet, idxAppend, Ne.symm h]
  | cons hd tl ih =>
    obtain ⟨k₀, rs⟩ := hd
    by_cases hk : k₀ = k
    · subst hk
      simp [idxGet, idxAppend, Ne.symm h]
    · by_cases hk' : k₀ = k'
      · subst hk'
        simp [idxGet, idxAppend, hk]
      · simp [idxGet, idxAppend, hk, hk', ih]

/-- Membership characterisation of the built index: a row sits under key
`k` exactly when it is a source row whose join column normalises to `k`. -/
theorem idxGet_buildIndex (nm jc sc : String) (recs : List Rec) :
    ∀ k r, r ∈ idxGet (buildIndex nm jc sc recs).records k
      ↔ (r ∈ recs ∧ goKey r jc = some k) := by
  have hgen : ∀ (rest processed : List Rec) (acc : List (GoValue × List Rec)),
      (∀ k r, r ∈ idxGet acc k ↔ (r ∈ processed ∧ goKey r jc = some k)) →
      ∀ k r, r ∈ idxGet (rest.foldl
          (fun m q =>
            match goKey q jc with
            | none => m
            | some k => idxAppend m k q) acc) k
        ↔ (r ∈ processed ++ rest ∧ goKey r jc = some k) := by
    intro rest
    induction rest with
    | nil =>
      intro processed acc hacc k r
      simpa using hacc k r
    | cons q rest ih =>
      intro processed acc hacc k r
      rw [List.foldl_cons]
      cases hq : goKey q jc with
      | none =>
        have := ih (processed ++ [q]) acc (fun k' r' => by
          rw [hacc k' r']
          constructor
          · rintro ⟨hm, hk⟩
            exact ⟨List.mem_append_left _ hm, hk⟩
          · rintro ⟨hm, hk⟩
            rcases List.mem_append.mp hm with hm | hm
            · exact ⟨hm, hk⟩
            · rcases List.mem_singleton.mp hm with rfl
              rw [hq] at hk
              cases hk) k r
        simp only [hq] at this ⊢
        rw [this]
        simp
      | some k0 =>
        have := ih (processed ++ [q]) (idxAppend acc k0 q) (fun k' r' => by
          by_cases hk' : k' = k0
          · subst hk'
            rw [idxGet_append_self]
            simp only [List.mem_append, List.mem_singleton]
            rw [hacc k' r']
            constructor
            · rintro (⟨hm, hk⟩ | rfl)
              · exact ⟨Or.inl hm, hk⟩
              · exact ⟨Or.inr rfl, hq⟩
            · rintro ⟨hm | rfl, hk⟩
              · exact Or.inl ⟨hm, hk⟩
              · exact Or.inr rfl
          · rw [idxGet_append_ne _ _ _ _ hk']
            rw [hacc k' r']
            constructor
            · rintro ⟨hm, hk⟩
              exact ⟨List.mem_append_left _ hm, hk⟩
            · rintro ⟨hm, hk⟩
              rcases List.mem_append.mp hm with hm | hm
              · exact ⟨hm, hk⟩
              · rcases List.mem_singleton.mp hm with rfl
                rw [hq] at hk
                cases hk
                exact absurd rfl hk') k r
        simp only [hq] at this ⊢
        rw [this]
        simp
  intro k r
  have := hgen recs [] [] (fun k r => by simp [idxGet]) k r
  simpa using this

/-- Every record stored in a built index is nonempty: it carries the join
column (its key is non-nil). -/
theorem buildIndex_WF (nm jc sc : String) (recs : List Rec) :
    IdxWF (buildIndex nm jc sc recs) := by
  intro k r hr
  obtain ⟨_, hkey⟩ := (idxGet_buildIndex nm jc sc recs k r).mp hr
  intro hnil
  subst hnil
  simp [goKey, recGet, assocGet, List.find?] at hkey

/-! ### Window key-set lemmas -/

theorem markKey_db (w : Window) (t : String) (k : GoValue) :
    (Window.markKey w t k).db = w.db := by
  cases h : assocGet w.insertedKeys t with
  | none => simp [Window.markKey, h]
  | some keys => simp [Window.markKey, h]

theorem hasKey_markKey (w : Window) (t : String) (k k' : GoValue) :
    (Window.markKey w t k).hasKey t k' = true ↔ (k' = k ∨ w.hasKey t k' = true) := by
  cases h : assocGet w.insertedKeys t with
  | none =>
    simp only [Window.markKey, Window.hasKey, h]
    rw [assocGet_set_self]
    simp
  | some keys =>
    simp only [Window.markKey, Window.hasKey, h]
    rw [assocGet_set_self]
    by_cases hc : keys.contains k = true
    · simp only [hc, if_true]
      constructor
      · exact fun hm => Or.inr hm
      · rintro (rfl | hm)
        · exact hc
        · exact hm
    · simp only [hc, if_false, Bool.false_eq_true]
      constructor
      · intro hm
        simp at hm
        rcases hm with hm | rfl
        · exact Or.inr (by simpa using hm)
        · exact Or.inl rfl
      · rintro (rfl | hm)
        · simp
        · simp at hm ⊢
          exact Or.inl hm

theorem hasKey_markKey_other (w : Window) (t t' : String) (k k' : GoValue)
    (h : t' ≠ t) : (Window.markKey w t k).hasKey t' k' = w.hasKey t' k' := by
  cases hm : assocGet w.insertedKeys t with
  | none =>
    simp only [Window.markKey, Window.hasKey, hm]
    rw [assocGet_set_ne _ _ _ _ h]
  | some keys =>
    simp only [Window.markKey, Window.hasKey, hm]
    rw [assocGet_set_ne _ _ _ _ h]

/-! ### Frame lemmas for the insert steps -/

theorem insertRecord_ok_frame (db : DB) (t : String) (r : Rec) :
    ∃ db', insertRecord db t r = Except.ok db'
      ∧ (∀ t', t' ≠ t → dbGet db' t' = dbGet db t') := by
  by_cases hr : r = []
  · subst hr
    exact ⟨db, by simp [insertRecord], fun _ _ => rfl⟩
  · obtain ⟨db', h1, _, h3, _, _⟩ := insertRecord_spec db t r hr
    exact ⟨db', h1, h3⟩

theorem insertIndexedRows_spec (rs : List Rec) (db : DB) (t : String)
    (hne : ∀ r ∈ rs, r ≠ []) :
    ∃ db', insertIndexedRows db t rs = Except.ok db'
      ∧ rowsOf db' t = rowsOf db t ++ rs.map bindRec
      ∧ (∀ t', t' ≠ t → dbGet db' t' = dbGet db t') := by
  induction rs generalizing db with
  | nil => exact ⟨db, rfl, by simp, fun _ _ => rfl⟩
  | cons r rest ih =>
    obtain ⟨db1, h1, hrows1, hother1, _, _⟩ :=
      insertRecord_spec db t r (hne r (List.mem_cons_self r rest))
    obtain ⟨db', h2, hrows2, hother2⟩ :=
      ih db1 (fun r' hr' => hne r' (List.mem_cons_of_mem _ hr'))
    refine ⟨db', ?_, ?_, ?_⟩
    · simp only [insertIndexedRows, h1]
      exact h2
    · rw [hrows2, hrows1]
      simp
    · intro t' ht'
      rw [hother2 t' ht', hother1 t' ht']

/-! ### Invariant transfer -/

theorem I3_frame {idx : IndexedTable} {w w' : Window}
    (hdb : dbGet w'.db idx.name = dbGet w.db idx.name)
    (hkeys : ∀ k, w'.hasKey idx.name k = w.hasKey idx.name k)
    (h : I3 idx w) : I3 idx w' := by
  intro row
  have hrows : rowsOf w'.db idx.name = rowsOf w.db idx.name := by
    unfold rowsOf
    rw [hdb]
  rw [hrows, h row]
  constructor
  · rintro ⟨k, r, hk, hr, hrow⟩
    exact ⟨k, r, (hkeys k).trans hk, hr, hrow⟩
  · rintro ⟨k, r, hk, hr, hrow⟩
    exact ⟨k, r, (hkeys k).symm.trans hk, hr, hrow⟩

/-- A fresh window (empty database, empty key sets) satisfies (I3). -/
theorem I3_initial (idx : IndexedTable) (w : Window) (hdb : w.db = [])
    (hkeys : w.insertedKeys = []) : I3 idx w := by
  intro row
  constructor
  · intro hrow
    rw [hdb] at hrow
    simp [rowsOf, dbGet, assocGet, List.find?] at hrow
  · rintro ⟨k, r, hk, _, _⟩
    simp [Window.hasKey, hkeys, assocGet, List.find?] at hk

/-! ### One indexed table's step -/

theorem processIndexed_spec (w : Window) (rec : Rec) (idx : IndexedTable)
    (hwf : IdxWF idx) (hI3 : I3 idx w) :
    ∃ w', processIndexed w rec idx = Except.ok w'
      ∧ I3 idx w'
      ∧ (∀ k, goKey rec idx.streamCol = some k → w'.hasKey idx.name k = true)
      ∧ (∀ k, goKey rec idx.streamCol = some k → w.hasKey idx.name k = true → w' = w)
      ∧ (∀ t', t' ≠ idx.name → dbGet w'.db t' = dbGet w.db t')
      ∧ (∀ t' k, t' ≠ idx.name → w'.hasKey t' k = w.hasKey t' k) := by
  cases hkey : goKey rec idx.streamCol with
  | none =>
    refine ⟨w, by simp [processIndexed, hkey], hI3, ?_, ?_, fun _ _ => rfl, fun _ _ _ => rfl⟩
    · intro k hk
      cases hk
    · intro k hk
      cases hk
  | some key =>
    by_cases hhas : w.hasKey idx.name key = true
    · refine ⟨w, ?_, hI3, ?_, fun _ _ _ => rfl, fun _ _ => rfl, fun _ _ _ => rfl⟩
      · simp [processIndexed, hkey, hhas]
      · intro k hk
        cases hk
        exact hhas
    · obtain ⟨db', hIns, hrows, hother⟩ :=
        insertIndexedRows_spec (idxGet idx.records key) w.db idx.name
          (fun r hr => hwf key r hr)
      refine ⟨Window.markKey { w with db := db' } idx.name key, ?_, ?_, ?_, ?_, ?_, ?_⟩
      · simp only [processIndexed, hkey]
        rw [if_neg hhas, hIns]
      · intro row
        have hdbeq : (Window.markKey { w with db := db' } idx.name key).db = db' :=
          markKey_db _ _ _
        have hrows' : rowsOf (Window.markKey { w with db := db' } idx.name key).db idx.name
            = rowsOf w.db idx.name ++ (idxGet idx.records key).map bindRec := by
          rw [hdbeq, hrows]
        rw [hrows']
        constructor
        · intro hm
          rcases List.mem_append.mp hm with hm | hm
          · obtain ⟨k', r, hk', hr, hrow⟩ := (hI3 row).mp hm
            exact ⟨k', r, (hasKey_markKey _ _ _ _).mpr (Or.inr hk'), hr, hrow⟩
          · obtain ⟨r, hr, hrow⟩ := List.mem_map.mp hm
            exact ⟨key, r, (hasKey_markKey _ _ _ _).mpr (Or.inl rfl), hr, hrow.symm⟩
        · rintro ⟨k', r, hk', hr, hrow⟩
          rcases (hasKey_markKey _ _ _ _).mp hk' with rfl | hk'
          · exact List.mem_append_right _ (hrow ▸ List.mem_map_of_mem bindRec hr)
          · exact List.mem_append_left _ ((hI3 row).mpr ⟨k', r, hk', hr, hrow⟩)
      · intro k hk
        cases hk
        exact (hasKey_markKey _ _ _ _).mpr (Or.inl rfl)
      · intro k hk hw
        cases hk
        exact absurd hw hhas
      · intro t' ht'
        rw [markKey_db]
        exact hother t' ht'
      · intro t' k ht'
        rw [hasKey_markKey_other _ _ _ _ _ ht']
        rfl

theorem rowsOf_congr {d1 d2 : DB} {t : String} (h : dbGet d1 t = dbGet d2 t) :
    rowsOf d1 t = rowsOf d2 t := by
  unfold rowsOf
  rw [h]

/-! ### The indexed-materialisation loop over all indexed tables -/

theorem processIndexedList_spec :
    ∀ (idxs : List IndexedTable) (w : Window) (rec : Rec),
    (∀ idx ∈ idxs, IdxWF idx) →
    List.Pairwise (fun a b => a.name ≠ b.name) idxs →
    (∀ idx ∈ idxs, I3 idx w) →
    ∃ w', processIndexedList idxs w rec = Except.ok w'
      ∧ (∀ idx ∈ idxs, I3 idx w')
      ∧ (∀ idx ∈ idxs, ∀ k, goKey rec idx.streamCol = some k →
          w'.hasKey idx.name k = true)
      ∧ (∀ t', (∀ idx ∈ idxs, t' ≠ idx.name) →
          dbGet w'.db t' = dbGet w.db t' ∧ ∀ k, w'.hasKey t' k = w.hasKey t' k)
      ∧ (∀ idx ∈ idxs, ∀ k, goKey rec idx.streamCol = some k →
          w.hasKey idx.name k = true →
          rowsOf w'.db idx.name = rowsOf w.db idx.name) := by
  intro idxs
  induction idxs with
  | nil =>
    intro w rec _ _ _
    exact ⟨w, rfl, by simp, by simp, fun _ _ => ⟨rfl, fun _ => rfl⟩, by simp⟩
  | cons idx rest ih =>
    intro w rec hwf hpair hI3
    obtain ⟨w1, hstep, hI3a, hkeyAfter, hAlready, hdbFrame, hkeyFrame⟩ :=
      processIndexed_spec w rec idx (hwf idx (List.mem_cons_self idx rest))
        (hI3 idx (List.mem_cons_self idx rest))
    have hpc := List.pairwise_cons.mp hpair
    have hne : ∀ idx' ∈ rest, idx'.name ≠ idx.name :=
      fun idx' h' => (hpc.1 idx' h').symm
    have hI3rest : ∀ idx' ∈ rest, I3 idx' w1 := by
      intro idx' h'
      exact I3_frame (hdbFrame idx'.name (hne idx' h'))
        (fun k => hkeyFrame idx'.name k (hne idx' h'))
        (hI3 idx' (List.mem_cons_of_mem _ h'))
    obtain ⟨w', hlist, hI3', hkeyAfter', hframe', hAlready'⟩ :=
      ih w1 rec (fun i h => hwf i (List.mem_cons_of_mem _ h)) hpc.2 hI3rest
    have hheadframe : dbGet w'.db idx.name = dbGet w1.db idx.name
        ∧ ∀ k, w'.hasKey idx.name k = w1.hasKey idx.name k :=
      hframe' idx.name (fun idx' h' => (hne idx' h').symm)
    refine ⟨w', ?_, ?_, ?_, ?_, ?_⟩
    · simp only [processIndexedList, hstep]
      exact hlist
    · intro i hi
      rcases List.mem_cons.mp hi with rfl | hi
      · exact I3_frame hheadframe.1 hheadframe.2 hI3a
      · exact hI3' i hi
    · intro i hi k hk
      rcases List.mem_cons.mp hi with rfl | hi
      · rw [hheadframe.2 k]
        exact hkeyAfter k hk
      · exact hkeyAfter' i hi k hk
    · intro t' ht'
      have h1 := hframe' t' (fun i hi => ht' i (List.mem_cons_of_mem _ hi))
      have h2db := hdbFrame t' (ht' idx (List.mem_cons_self idx rest))
      have h2k := fun k => hkeyFrame t' k (ht' idx (List.mem_cons_self idx rest))
      exact ⟨h1.1.trans h2db, fun k => (h1.2 k).trans (h2k k)⟩
    · intro i hi k hk hw
      rcases List.mem_cons.mp hi with rfl | hi
      · have hw1 : w1 = w := hAlready k hk hw
        rw [hw1] at hheadframe
        exact rowsOf_congr hheadframe.1
      · have hkeq : w1.hasKey i.name k = w.hasKey i.name k :=
          hkeyFrame i.name k (hne i hi)
      -- transfer the already-materialised hypothesis through the head step
        have hw1 : w1.hasKey i.name k = true := hkeq.trans hw
        have h1 := hAlready' i hi k hk hw1
        have h2 := rowsOf_congr (hdbFrame i.name (hne i hi))
        exact h1.trans h2

/-- C1: per-record indexed materialisation.  The index built for a source
holds, under each normalised key, exactly the source rows whose index
column normalises to that key; and processing one streaming record into a
window (insert the record, then lazily materialise indexed matches)
succeeds and (a) preserves invariant (I3) — the rows of each indexed
source present in the window's database are exactly those whose join key
is in the window's materialised-keys set, (b) leaves every row of the
source matching the record's probe key present in the window under the
source's table name with its key recorded, and (c) inserts no further rows
for a record whose key was already materialised.  Hypotheses: indexed
sources have well-formed indexes and pairwise-distinct table names, none
of which equals the streaming record's table. -/
theorem processRecord_materialises_indexed (idxs : List IndexedTable) (w : Window)
    (table : String) (rec : Rec)
    (hwf : ∀ idx ∈ idxs, IdxWF idx)
    (hpair : List.Pairwise (fun a b => a.name ≠ b.name) idxs)
    (htab : ∀ idx ∈ idxs, idx.name ≠ table)
    (hI3 : ∀ idx ∈ idxs, I3 idx w) :
    (∀ nm jc sc recs k r,
        r ∈ idxGet (buildIndex nm jc sc recs).records k
          ↔ (r ∈ recs ∧ goKey r jc = some k))
    ∧ ∃ w', processRecord idxs w table rec = Except.ok w'
      ∧ (∀ idx ∈ idxs, I3 idx w')
      ∧ (∀ idx ∈ idxs, ∀ k, goKey rec idx.streamCol = some k →
          w'.hasKey idx.name k = true
          ∧ ∀ r ∈ idxGet idx.records k, bindRec r ∈ rowsOf w'.db idx.name)
      ∧ (∀ idx ∈ idxs, ∀ k, goKey rec idx.streamCol = some k →
          w.hasKey idx.name k = true →
          rowsOf w'.db idx.name = rowsOf w.db idx.name) := by
  refine ⟨fun nm jc sc recs k r => idxGet_buildIndex nm jc sc recs k r, ?_⟩
  obtain ⟨db1, hIns, hother⟩ := insertRecord_ok_frame w.db table rec
  have hI3w1 : ∀ idx ∈ idxs, I3 idx { w with db := db1 } := by
    intro idx h
    exact I3_frame (hother idx.name (htab idx h)) (fun _ => rfl) (hI3 idx h)
  obtain ⟨w', hlist, hI3', hkeys', hframe', hAlready'⟩ :=
    processIndexedList_spec idxs { w with db := db1 } rec hwf hpair hI3w1
  refine ⟨w', ?_, hI3', ?_, ?_⟩
  · simp only [processRecord, hIns]
    exact hlist
  · intro idx h k hk
    refine ⟨hkeys' idx h k hk, fun r hr => ?_⟩
    exact (hI3' idx h (bindRec r)).mpr ⟨k, r, hkeys' idx h k hk, hr, rfl⟩
  · intro idx h k hk hw
    have h1 := hAlready' idx h k hk hw
    have h2 := rowsOf_congr (hother idx.name (htab idx h))
    exact h1.trans h2

/-- The concrete Indexed lookup table for the C1 witness: batch source
`L` keyed on `code`, one row with integer code 1. -/
def lookupIdx : IndexedTable :=
  buildIndex "L" "code" "code" [[("code", GoValue.vInt64 1), ("val", GoValue.vText "x")]]

/-- A fresh one-hour window starting at epoch. -/
def freshWin : Window :=
  { db := [], start := 0, endT := 3600000000000, insertedKeys := [] }

/-- The concrete streaming record for the C1 witness: float code 1.0
(normalising to the same key as the integer 1 of the batch row). -/
def probeRec : Rec := [("code", GoValue.vFloat64 1), ("a", GoValue.vText "y")]

/-- Witness for C1 at a concrete input: one Indexed lookup table `L` keyed
on `code` (a single batch row with integer code 1), probed by a streaming
record for table `e` whose `code` is the float 1.0 — the keys normalise
identically. -/
theorem processRecord_materialises_indexed_witness :
    (∀ idx ∈ [lookupIdx], IdxWF idx)
    ∧ ((∀ nm jc sc recs k r,
        r ∈ idxGet (buildIndex nm jc sc recs).records k
          ↔ (r ∈ recs ∧ goKey r jc = some k))
      ∧ ∃ w', processRecord [lookupIdx] freshWin "e" probeRec = Except.ok w'
        ∧ (∀ idx ∈ [lookupIdx], I3 idx w')
        ∧ (∀ idx ∈ [lookupIdx], ∀ k, goKey probeRec idx.streamCol = some k →
            w'.hasKey idx.name k = true
            ∧ ∀ r ∈ idxGet idx.records k, bindRec r ∈ rowsOf w'.db idx.name)
        ∧ (∀ idx ∈ [lookupIdx], ∀ k, goKey probeRec idx.streamCol = some k →
            freshWin.hasKey idx.name k = true →
            rowsOf w'.db idx.name = rowsOf freshWin.db idx.name)) := by
  have hwf : ∀ idx ∈ [lookupIdx], IdxWF idx := by
    intro idx h
    rw [List.mem_singleton] at h
    subst h
    exact buildIndex_WF _ _ _ _
  refine ⟨hwf, processRecord_materialises_indexed [lookupIdx] freshWin "e" probeRec
    hwf (by simp) ?_ ?_⟩
  · intro idx h
    rw [List.mem_singleton] at h
    subst h
    decide
  · intro idx h
    exact I3_initial idx freshWin rfl rfl

end Csql
